import Mathlib

/-!
Verification of the ag-ui protocol-translation middleware.

The development shallowly embeds three components of the repository:

* `AdkTranslator` — the `EventTranslator` state machine of the ADK
  middleware.  The file `src/ag_ui_adk/event_translator.py` is not part of
  the provided sources (only its tests and callers are), so the translator
  is modelled from the specification (§3, §4.1 of the design document) and
  cross-checked against the behaviours pinned by the test files
  `test_claude_streaming.py`, `test_lro_filtering.py`,
  `test_skip_summarization.py` and `test_predictive_state.py`.
* `AdkEndpoint` — the `event_generator` of
  `src/integrations/adk-middleware/python/src/ag_ui_adk/endpoint.py`.
* `Strands` — `StrandsAgent.run` of
  `src/integrations/aws-strands/python/src/ag_ui_strands/agent.py`.
-/

namespace AdkTranslator

/-- A predictive-state mapping record `{state_key, tool, tool_argument}`
(spec §3, configuration of the translator). -/
structure PredictMapping where
  stateKey : String
  tool : String
  toolArgument : String
deriving DecidableEq, Repr

/-- A function call carried by a raw runtime event: `{id (nullable), name,
args}`.  Arguments are modelled already serialized (the translator treats
them as an opaque payload serialized into the args event). -/
structure FunctionCall where
  id : Option String
  name : String
  args : String
deriving DecidableEq, Repr

/-- A function response carried by a raw runtime event:
`{id, response}`, the response modelled as its serialized payload. -/
structure FunctionResponse where
  id : String
  response : String
deriving DecidableEq, Repr

/-- One entry of `content.parts`: optional text (with a thought flag used by
the thinking phase), an optional function call, an optional function
response (spec §3, RawRuntimeEvent). -/
structure Part where
  text : Option String := none
  thought : Bool := false
  functionCall : Option FunctionCall := none
  functionResponse : Option FunctionResponse := none
deriving DecidableEq, Repr

/-- A raw runtime event, field by field as consumed by the translator
(spec §3).  `preview` models the tri-state `partial` attribute
(`none` = attribute absent), `turnComplete` the tri-state `turn_complete`,
`finishReason` the optional terminal signal, `isFinal` the result of
`is_final_response()`, and `longRunningToolIds` the long-running
annotation of this event. -/
structure RawEvent where
  parts : List Part := []
  preview : Option Bool := none
  turnComplete : Option Bool := none
  finishReason : Option String := none
  isFinal : Bool := false
  longRunningToolIds : List String := []
deriving DecidableEq, Repr

/-- Derived accessor `get_function_calls()`: the function-call payloads
present in this event's parts. -/
def RawEvent.getFunctionCalls (e : RawEvent) : List FunctionCall :=
  e.parts.filterMap (·.functionCall)

/-- Derived accessor `get_function_responses()`: the function-response
payloads present in this event's parts. -/
def RawEvent.getFunctionResponses (e : RawEvent) : List FunctionResponse :=
  e.parts.filterMap (·.functionResponse)

/-- The text carried by the non-thought parts of an event, parts with
`text = None` or `""` filtered out and the rest concatenated (spec §4.1
phase 1 scans the parts for non-empty text; the mixed-parts test pins a
single combined delta per event). -/
def RawEvent.combinedText (e : RawEvent) : String :=
  String.join ((e.parts.filter (fun p => !p.thought)).filterMap (·.text))

/-- The thought text carried by the parts marked as thoughts, combined the
same way (spec §4.1 phase 3). -/
def RawEvent.combinedThought (e : RawEvent) : String :=
  String.join ((e.parts.filter (fun p => p.thought)).filterMap (·.text))

/-- The protocol events the translator can produce (spec §6 output
contract).  Message ids are drawn from a counter, modelling the fresh
uuid4 allocation of the source. -/
inductive ProtocolEvent where
  | textStart (messageId : Nat)
  | textContent (messageId : Nat) (delta : String)
  | textEnd (messageId : Nat)
  | thinkingStart (messageId : Nat)
  | thinkingContent (messageId : Nat) (delta : String)
  | thinkingEnd (messageId : Nat)
  | toolCallStart (toolCallId : String) (toolCallName : String)
      (parentMessageId : Option Nat)
  | toolCallArgs (toolCallId : String) (delta : String)
  | toolCallEnd (toolCallId : String)
  | toolCallResult (toolCallId : String) (content : String)
  | predictState (value : List PredictMapping)
deriving DecidableEq, Repr

/-- Modelled from the spec: the `EventTranslator` state (spec §3,
TranslatorState).  The source file `event_translator.py` is absent from
the provided sources; fields follow §3 verbatim.  `nextId` encodes the
allocation of fresh message ids (uuid4 in the source). -/
structure EventTranslator where
  isStreaming : Bool := false
  currentMessageId : Nat := 0
  currentStreamText : String := ""
  lastStreamedText : String := ""
  isThinking : Bool := false
  currentThinkingId : Nat := 0
  currentThinkingText : String := ""
  seenToolCallIds : List String := []
  predictStateSent : List String := []
  longRunningToolIds : List String := []
  nextId : Nat := 1
  predictStateByTool : List (String × List PredictMapping) := []
deriving DecidableEq, Repr

/-- A fresh translator with the given predictive-state configuration. -/
def EventTranslator.mk0 (cfg : List (String × List PredictMapping)) :
    EventTranslator :=
  { predictStateByTool := cfg }

/-- Character-wise suffix test on strings, modelling Python's
`str.endswith`. -/
def strEndsWith (s suffix : String) : Bool :=
  suffix.data.isSuffixOf s.data

/-- Modelled from the spec: closing the open text span (spec §4.1 phase 1:
emit a text-end event, clear `is_streaming`, copy `current_stream_text`
into `last_streamed_text`, clear `current_stream_text`). -/
def EventTranslator.closeTextSpan (s : EventTranslator) :
    List ProtocolEvent × EventTranslator :=
  ([ProtocolEvent.textEnd s.currentMessageId],
   { s with isStreaming := false,
            lastStreamedText := s.currentStreamText,
            currentStreamText := "" })

/-- Modelled from the spec: the duplicate heuristic of phase 2 — the final
text is a duplicate when it exactly matches, or is a suffix-stable
re-statement of, the non-empty reference text (`last_streamed_text`, and
defensively `current_stream_text` while a span is still open).  The
suffix form is pinned by `test_claude_accumulated_text_in_chunks` and
`test_claude_accumulated_text_with_early_stream_end`. -/
def EventTranslator.isDuplicateFinal (s : EventTranslator) (text : String) :
    Bool :=
  (!s.lastStreamedText.isEmpty && strEndsWith s.lastStreamedText text) ||
  (s.isStreaming && !s.currentStreamText.isEmpty &&
    strEndsWith s.currentStreamText text)

/-- Modelled from the spec: phases 1–2 of `translate` (spec §4.1) — the
text-content phase for streaming deltas and the final-response dedup
phase.  The source file `event_translator.py` is absent from the provided
sources. -/
def EventTranslator.translateTextPhase (s : EventTranslator) (e : RawEvent) :
    List ProtocolEvent × EventTranslator :=
  let text := e.combinedText
  if text.isEmpty then ([], s)
  else if !e.isFinal then
    -- phase 1: streaming delta
    let (outStart, s1) :=
      if s.isStreaming then (([] : List ProtocolEvent), s)
      else ([ProtocolEvent.textStart s.nextId],
            { s with isStreaming := true, currentMessageId := s.nextId,
                     currentStreamText := "", nextId := s.nextId + 1 })
    let s2 := { s1 with currentStreamText := s1.currentStreamText ++ text }
    let outContent := [ProtocolEvent.textContent s2.currentMessageId text]
    if e.turnComplete.getD false || e.finishReason.isSome then
      let (outEnd, s3) := s2.closeTextSpan
      (outStart ++ outContent ++ outEnd, s3)
    else
      (outStart ++ outContent, s2)
  else
    -- phase 2: authoritative final response carrying text
    if s.isDuplicateFinal text then
      if s.isStreaming then s.closeTextSpan else ([], s)
    else
      let (outClose, s1) :=
        if s.isStreaming then s.closeTextSpan else (([] : List ProtocolEvent), s)
      let mid := s1.nextId
      (outClose ++ [ProtocolEvent.textStart mid,
                    ProtocolEvent.textContent mid text,
                    ProtocolEvent.textEnd mid],
       { s1 with lastStreamedText := text, nextId := mid + 1 })

/-- Modelled from the spec: closing the open thinking span (mirror of
`closeTextSpan`; the thinking state machine owns only the streaming
triad, spec §3). -/
def EventTranslator.closeThinkingSpan (s : EventTranslator) :
    List ProtocolEvent × EventTranslator :=
  ([ProtocolEvent.thinkingEnd s.currentThinkingId],
   { s with isThinking := false, currentThinkingText := "" })

/-- Modelled from the spec: phase 3 of `translate` — mirrors phases 1–2
independently for thought content, over its own
`is_thinking`/`current_thinking_*` state (spec §4.1 phase 3). -/
def EventTranslator.translateThinkingPhase (s : EventTranslator)
    (e : RawEvent) : List ProtocolEvent × EventTranslator :=
  let text := e.combinedThought
  if text.isEmpty then ([], s)
  else if !e.isFinal then
    let (outStart, s1) :=
      if s.isThinking then (([] : List ProtocolEvent), s)
      else ([ProtocolEvent.thinkingStart s.nextId],
            { s with isThinking := true, currentThinkingId := s.nextId,
                     currentThinkingText := "", nextId := s.nextId + 1 })
    let s2 := { s1 with currentThinkingText := s1.currentThinkingText ++ text }
    let outContent := [ProtocolEvent.thinkingContent s2.currentThinkingId text]
    if e.turnComplete.getD false || e.finishReason.isSome then
      let (outEnd, s3) := s2.closeThinkingSpan
      (outStart ++ outContent ++ outEnd, s3)
    else
      (outStart ++ outContent, s2)
  else
    if s.isThinking && !s.currentThinkingText.isEmpty &&
        strEndsWith s.currentThinkingText text then
      s.closeThinkingSpan
    else
      let (outClose, s1) :=
        if s.isThinking then s.closeThinkingSpan
        else (([] : List ProtocolEvent), s)
      let mid := s1.nextId
      (outClose ++ [ProtocolEvent.thinkingStart mid,
                    ProtocolEvent.thinkingContent mid text,
                    ProtocolEvent.thinkingEnd mid],
       { s1 with nextId := mid + 1 })

/-- Modelled from the spec: the effective id of a function call — the
provided id, or a generated stable fresh id when absent (spec §3:
"nullable — generate a stable random id if absent"). -/
def EventTranslator.effectiveId (s : EventTranslator) (fc : FunctionCall) :
    String × EventTranslator :=
  match fc.id with
  | some i => (i, s)
  | none => ("generated-" ++ toString s.nextId, { s with nextId := s.nextId + 1 })

/-- Modelled from the spec: phase 4 handling of one confirmed function
call (spec §4.1 phase 4): skip long-running ids and already-seen ids;
otherwise mark seen, emit the one-time predictive-state custom event if
configured, then the tool-call start/args/end triad, with the open text
message as parent when one is open. -/
def EventTranslator.translateOneCall (s : EventTranslator)
    (fc : FunctionCall) : List ProtocolEvent × EventTranslator :=
  let (cid, s) := s.effectiveId fc
  if s.longRunningToolIds.contains cid then ([], s)
  else if s.seenToolCallIds.contains cid then ([], s)
  else
    let s := { s with seenToolCallIds := cid :: s.seenToolCallIds }
    let mappings := (s.predictStateByTool.lookup fc.name).getD []
    let (outPredict, s) :=
      if !mappings.isEmpty && !s.predictStateSent.contains fc.name then
        ([ProtocolEvent.predictState mappings],
         { s with predictStateSent := fc.name :: s.predictStateSent })
      else (([] : List ProtocolEvent), s)
    let parent := if s.isStreaming then some s.currentMessageId else none
    (outPredict ++ [ProtocolEvent.toolCallStart cid fc.name parent,
                    ProtocolEvent.toolCallArgs cid fc.args,
                    ProtocolEvent.toolCallEnd cid], s)

/-- Modelled from the spec: phase 4 over the whole list of function calls
of the event. -/
def EventTranslator.translateCallsList (s : EventTranslator) :
    List FunctionCall → List ProtocolEvent × EventTranslator
  | [] => ([], s)
  | fc :: rest =>
    let (out, s1) := s.translateOneCall fc
    let (outs, s2) := s1.translateCallsList rest
    (out ++ outs, s2)

/-- Modelled from the spec: phase 4 of `translate` — skipped entirely when
the event is a streaming preview (`partial=true`); a missing `partial`
attribute is treated as false (spec §4.1 phase 4). -/
def EventTranslator.translateCallsPhase (s : EventTranslator) (e : RawEvent) :
    List ProtocolEvent × EventTranslator :=
  if e.preview.getD false then ([], s)
  else s.translateCallsList e.getFunctionCalls

/-- Modelled from the spec: phase 5 of `translate` — one tool-call-result
event per function response whose id is not long-running; executes
unconditionally after phases 1–4 (spec §4.1 phase 5). -/
def EventTranslator.translateResponsesPhase (s : EventTranslator)
    (e : RawEvent) : List ProtocolEvent × EventTranslator :=
  (e.getFunctionResponses.filterMap fun fr =>
    if s.longRunningToolIds.contains fr.id then none
    else some (ProtocolEvent.toolCallResult fr.id fr.response), s)

/-- Modelled from the spec: the accumulation of the event's long-running
tool ids into the run-wide set (spec §3: `long_running_tool_ids`
"accumulates IDs seen via `long_running_tool_ids` across events in the
run"). -/
def EventTranslator.accumulateLro (s : EventTranslator) (e : RawEvent) :
    EventTranslator :=
  { s with longRunningToolIds :=
      s.longRunningToolIds ++
        e.longRunningToolIds.filter (fun i => !s.longRunningToolIds.contains i) }

/-- Modelled from the spec: `translate(event, thread_id, run_id)` — the
five phases of spec §4.1 run in order over the accumulated state.  The
thread and run identifiers only decorate the emitted events in the source
and are omitted here. -/
def EventTranslator.translate (s : EventTranslator) (e : RawEvent) :
    List ProtocolEvent × EventTranslator :=
  let s0 := s.accumulateLro e
  let (o1, s1) := s0.translateTextPhase e
  let (o2, s2) := s1.translateThinkingPhase e
  let (o3, s3) := s2.translateCallsPhase e
  let (o4, s4) := s3.translateResponsesPhase e
  (o1 ++ o2 ++ o3 ++ o4, s4)

/-- Modelled from the spec: `translate_lro_function_calls(event)` — scans
`content.parts` for function-call parts whose id is in the long-running
set and emits the start/args/end triad only for those calls (spec §4.1). -/
def EventTranslator.translateLroFunctionCalls (s : EventTranslator)
    (e : RawEvent) : List ProtocolEvent × EventTranslator :=
  let s0 := s.accumulateLro e
  (e.getFunctionCalls.flatMap fun fc =>
    match fc.id with
    | some i =>
      if s0.longRunningToolIds.contains i then
        let parent := if s0.isStreaming then some s0.currentMessageId else none
        [ProtocolEvent.toolCallStart i fc.name parent,
         ProtocolEvent.toolCallArgs i fc.args,
         ProtocolEvent.toolCallEnd i]
      else []
    | none => [], s0)

/-- Modelled from the spec: `force_close_streaming_message()` — idempotent
close of the text span (spec §4.1). -/
def EventTranslator.forceCloseStreamingMessage (s : EventTranslator) :
    List ProtocolEvent × EventTranslator :=
  if s.isStreaming then s.closeTextSpan else ([], s)

/-- Modelled from the spec: `force_close_thinking_message()` — symmetric
close of the thinking span (spec §4.1). -/
def EventTranslator.forceCloseThinkingMessage (s : EventTranslator) :
    List ProtocolEvent × EventTranslator :=
  if s.isThinking then s.closeThinkingSpan else ([], s)

/-- Modelled from the spec: `reset()` — clears all mutable per-run state
while preserving the `predict_state_by_tool` configuration (spec §4.1). -/
def EventTranslator.reset (s : EventTranslator) : EventTranslator :=
  EventTranslator.mk0 s.predictStateByTool

/-- Threads a whole run of `translate` calls through the state, collecting
the emitted protocol events. -/
def EventTranslator.translateAll (s : EventTranslator) :
    List RawEvent → List ProtocolEvent × EventTranslator
  | [] => ([], s)
  | e :: es =>
    let (o, s1) := s.translate e
    let (os, s2) := s1.translateAll es
    (o ++ os, s2)

/-- A full run as driven by the collaborator: a fresh translator, one
`translate` call per event, then the two force-close operations (spec
§4.1, §8 framing property). -/
def runTranslator (cfg : List (String × List PredictMapping))
    (es : List RawEvent) : List ProtocolEvent :=
  let (o, s1) := (EventTranslator.mk0 cfg).translateAll es
  let (oc, s2) := s1.forceCloseStreamingMessage
  let (ot, _) := s2.forceCloseThinkingMessage
  o ++ oc ++ ot

end AdkTranslator

namespace AdkTranslator

/-- Recognizer for text-message-start events. -/
def isTextStart : ProtocolEvent → Bool
  | .textStart _ => true
  | _ => false

/-- Recognizer for text-message-end events. -/
def isTextEnd : ProtocolEvent → Bool
  | .textEnd _ => true
  | _ => false

/-- Recognizer for thinking-start events. -/
def isThinkingStart : ProtocolEvent → Bool
  | .thinkingStart _ => true
  | _ => false

/-- Recognizer for thinking-end events. -/
def isThinkingEnd : ProtocolEvent → Bool
  | .thinkingEnd _ => true
  | _ => false

/-- Runs the span bracketing automaton over an event list: `b` records
whether a span is open; a start while open or an end while closed is a
framing violation (`none`). -/
def spanRun {α : Type} (st en : α → Bool) :
    Bool → List α → Option Bool
  | b, [] => some b
  | b, e :: es =>
    if st e then (if b then none else spanRun st en true es)
    else if en e then (if b then spanRun st en false es else none)
    else spanRun st en b es

/-- A list of events is well bracketed for a span kind when the
automaton accepts it starting and ending closed: every start is followed
by exactly one matching end, with no other start strictly between. -/
def WellFramed {α : Type} (st en : α → Bool) (l : List α) : Prop :=
  spanRun st en false l = some false

theorem spanRun_append {α : Type} (st en : α → Bool) (l1 l2 : List α)
    (b : Bool) :
    spanRun st en b (l1 ++ l2) =
      (spanRun st en b l1).bind (fun b2 => spanRun st en b2 l2) := by
  induction l1 generalizing b with
  | nil => simp [spanRun]
  | cons e es ih =>
    simp only [List.cons_append, spanRun]
    split
    · split
      · simp
      · exact ih true
    · split
      · split
        · exact ih false
        · simp
      · exact ih b

theorem spanRun_neutral {α : Type} (st en : α → Bool) (l : List α)
    (h : ∀ e ∈ l, st e = false ∧ en e = false) (b : Bool) :
    spanRun st en b l = some b := by
  induction l with
  | nil => rfl
  | cons e es ih =>
    have he := h e (List.mem_cons_self e es)
    simp only [spanRun, he.1, he.2, if_false]
    exact ih (fun x hx => h x (List.mem_cons_of_mem e hx))

end AdkTranslator

namespace AdkTranslator

theorem textPhase_framing (s : EventTranslator) (e : RawEvent) :
    spanRun isTextStart isTextEnd s.isStreaming (s.translateTextPhase e).1 =
      some ((s.translateTextPhase e).2).isStreaming := by
  cases hs : s.isStreaming <;>
    simp [EventTranslator.translateTextPhase, EventTranslator.closeTextSpan,
      spanRun, isTextStart, isTextEnd, hs] <;>
    split_ifs <;>
    simp [spanRun, isTextStart, isTextEnd, hs]

end AdkTranslator

namespace AdkTranslator

theorem textPhase_isThinking (s : EventTranslator) (e : RawEvent) :
    ((s.translateTextPhase e).2).isThinking = s.isThinking := by
  cases hs : s.isStreaming <;>
    simp [EventTranslator.translateTextPhase, EventTranslator.closeTextSpan, hs] <;>
    split_ifs <;>
    simp

/-- Events that belong to neither span automaton. -/
def framingNeutral (ev : ProtocolEvent) : Bool :=
  !(isTextStart ev || isTextEnd ev || isThinkingStart ev || isThinkingEnd ev)

theorem textPhase_thinking_neutral (s : EventTranslator) (e : RawEvent) :
    ∀ ev ∈ (s.translateTextPhase e).1,
      isThinkingStart ev = false ∧ isThinkingEnd ev = false := by
  cases hs : s.isStreaming <;>
    simp [EventTranslator.translateTextPhase, EventTranslator.closeTextSpan, hs] <;>
    split_ifs <;>
    simp [isThinkingStart, isThinkingEnd]

theorem thinkingPhase_framing (s : EventTranslator) (e : RawEvent) :
    spanRun isThinkingStart isThinkingEnd s.isThinking
      (s.translateThinkingPhase e).1 =
      some ((s.translateThinkingPhase e).2).isThinking := by
  cases hs : s.isThinking <;>
    simp [EventTranslator.translateThinkingPhase, EventTranslator.closeThinkingSpan,
      spanRun, isThinkingStart, isThinkingEnd, hs] <;>
    split_ifs <;>
    simp [spanRun, isThinkingStart, isThinkingEnd, hs]

theorem thinkingPhase_isStreaming (s : EventTranslator) (e : RawEvent) :
    ((s.translateThinkingPhase e).2).isStreaming = s.isStreaming := by
  cases hs : s.isThinking <;>
    simp [EventTranslator.translateThinkingPhase, EventTranslator.closeThinkingSpan, hs] <;>
    split_ifs <;>
    simp

theorem thinkingPhase_text_neutral (s : EventTranslator) (e : RawEvent) :
    ∀ ev ∈ (s.translateThinkingPhase e).1,
      isTextStart ev = false ∧ isTextEnd ev = false := by
  cases hs : s.isThinking <;>
    simp [EventTranslator.translateThinkingPhase, EventTranslator.closeThinkingSpan, hs] <;>
    split_ifs <;>
    simp [isTextStart, isTextEnd]

theorem oneCall_neutral (s : EventTranslator) (fc : FunctionCall) :
    (∀ ev ∈ (s.translateOneCall fc).1, framingNeutral ev = true) ∧
    ((s.translateOneCall fc).2).isStreaming = s.isStreaming ∧
    ((s.translateOneCall fc).2).isThinking = s.isThinking := by
  cases fc with
  | mk fid name args =>
    cases fid <;>
      simp [EventTranslator.translateOneCall, EventTranslator.effectiveId] <;>
      split_ifs <;>
      simp [framingNeutral, isTextStart, isTextEnd, isThinkingStart, isThinkingEnd]

theorem callsList_neutral (s : EventTranslator) (l : List FunctionCall) :
    (∀ ev ∈ (s.translateCallsList l).1, framingNeutral ev = true) ∧
    ((s.translateCallsList l).2).isStreaming = s.isStreaming ∧
    ((s.translateCallsList l).2).isThinking = s.isThinking := by
  induction l generalizing s with
  | nil => simp [EventTranslator.translateCallsList]
  | cons fc rest ih =>
    have h1 := oneCall_neutral s fc
    have h2 := ih (s.translateOneCall fc).2
    simp only [EventTranslator.translateCallsList]
    refine ⟨?_, ?_, ?_⟩
    · intro ev hev
      rcases List.mem_append.mp hev with h | h
      · exact h1.1 ev h
      · exact h2.1 ev h
    · rw [h2.2.1, h1.2.1]
    · rw [h2.2.2, h1.2.2]

end AdkTranslator

namespace AdkTranslator

theorem callsPhase_neutral (s : EventTranslator) (e : RawEvent) :
    (∀ ev ∈ (s.translateCallsPhase e).1, framingNeutral ev = true) ∧
    ((s.translateCallsPhase e).2).isStreaming = s.isStreaming ∧
    ((s.translateCallsPhase e).2).isThinking = s.isThinking := by
  simp only [EventTranslator.translateCallsPhase]
  split_ifs
  · simp
  · exact callsList_neutral s e.getFunctionCalls

theorem responsesPhase_neutral (s : EventTranslator) (e : RawEvent) :
    (∀ ev ∈ (s.translateResponsesPhase e).1, framingNeutral ev = true) ∧
    (s.translateResponsesPhase e).2 = s := by
  constructor
  · intro ev hev
    simp only [EventTranslator.translateResponsesPhase, List.mem_filterMap] at hev
    obtain ⟨fr, _, hfr⟩ := hev
    split_ifs at hfr
    simp only [Option.some.injEq] at hfr
    rw [← hfr]
    rfl
  · rfl

theorem spanRun_of_neutral_text (l : List ProtocolEvent)
    (h : ∀ ev ∈ l, framingNeutral ev = true) (b : Bool) :
    spanRun isTextStart isTextEnd b l = some b := by
  refine spanRun_neutral _ _ l (fun ev hev => ?_) b
  have := h ev hev
  simp [framingNeutral] at this
  exact ⟨this.1.1.1, this.1.1.2⟩

theorem spanRun_of_neutral_thinking (l : List ProtocolEvent)
    (h : ∀ ev ∈ l, framingNeutral ev = true) (b : Bool) :
    spanRun isThinkingStart isThinkingEnd b l = some b := by
  refine spanRun_neutral _ _ l (fun ev hev => ?_) b
  have := h ev hev
  simp [framingNeutral] at this
  exact ⟨this.1.2, this.2⟩

end AdkTranslator

namespace AdkTranslator

theorem translate_text_framing (s : EventTranslator) (e : RawEvent) :
    spanRun isTextStart isTextEnd s.isStreaming (s.translate e).1 =
      some ((s.translate e).2).isStreaming := by
  unfold EventTranslator.translate
  cases h1 : (s.accumulateLro e).translateTextPhase e with
  | mk o1 s1 =>
  cases h2 : s1.translateThinkingPhase e with
  | mk o2 s2 =>
  cases h3 : s2.translateCallsPhase e with
  | mk o3 s3 =>
  cases h4 : s3.translateResponsesPhase e with
  | mk o4 s4 =>
  have e1 := textPhase_framing (s.accumulateLro e) e
  have e2 := thinkingPhase_text_neutral s1 e
  have e2s := thinkingPhase_isStreaming s1 e
  have e3 := callsPhase_neutral s2 e
  have e4 := responsesPhase_neutral s3 e
  rw [h1] at e1
  rw [h2] at e2 e2s
  rw [h3] at e3
  rw [h4] at e4
  simp only at e1 e2 e2s e3 e4
  simp only [h1, h2, h3, h4]
  have hacc : (s.accumulateLro e).isStreaming = s.isStreaming := rfl
  rw [hacc] at e1
  rw [spanRun_append, spanRun_append, spanRun_append, e1, Option.some_bind,
      spanRun_neutral _ _ o2 (fun x hx => e2 x hx), Option.some_bind,
      spanRun_of_neutral_text o3 e3.1, Option.some_bind,
      spanRun_of_neutral_text o4 e4.1, e4.2, e3.2.1, e2s]

end AdkTranslator

namespace AdkTranslator

theorem translate_thinking_framing (s : EventTranslator) (e : RawEvent) :
    spanRun isThinkingStart isThinkingEnd s.isThinking (s.translate e).1 =
      some ((s.translate e).2).isThinking := by
  unfold EventTranslator.translate
  cases h1 : (s.accumulateLro e).translateTextPhase e with
  | mk o1 s1 =>
  cases h2 : s1.translateThinkingPhase e with
  | mk o2 s2 =>
  cases h3 : s2.translateCallsPhase e with
  | mk o3 s3 =>
  cases h4 : s3.translateResponsesPhase e with
  | mk o4 s4 =>
  have e1 := textPhase_thinking_neutral (s.accumulateLro e) e
  have e1t := textPhase_isThinking (s.accumulateLro e) e
  have e2 := thinkingPhase_framing s1 e
  have e3 := callsPhase_neutral s2 e
  have e4 := responsesPhase_neutral s3 e
  rw [h1] at e1 e1t
  rw [h2] at e2
  rw [h3] at e3
  rw [h4] at e4
  simp only at e1 e1t e2 e3 e4
  simp only [h1, h2, h3, h4]
  have hacc : (s.accumulateLro e).isThinking = s.isThinking := rfl
  rw [hacc] at e1t
  rw [e1t] at e2
  rw [spanRun_append, spanRun_append, spanRun_append,
      spanRun_neutral _ _ o1 (fun x hx => e1 x hx), Option.some_bind,
      e2, Option.some_bind,
      spanRun_of_neutral_thinking o3 e3.1, Option.some_bind,
      spanRun_of_neutral_thinking o4 e4.1, e4.2, e3.2.2]

theorem translateAll_text_framing (es : List RawEvent) :
    ∀ s : EventTranslator,
      spanRun isTextStart isTextEnd s.isStreaming (s.translateAll es).1 =
        some ((s.translateAll es).2).isStreaming := by
  induction es with
  | nil => intro s; rfl
  | cons e rest ih =>
    intro s
    unfold EventTranslator.translateAll
    cases h1 : s.translate e with
    | mk o s1 =>
    cases h2 : s1.translateAll rest with
    | mk os s2 =>
    have f1 := translate_text_framing s e
    have f2 := ih s1
    rw [h1] at f1
    rw [h2] at f2
    simp only at f1 f2
    simp only [h1, h2]
    rw [spanRun_append, f1, Option.some_bind, f2]

theorem translateAll_thinking_framing (es : List RawEvent) :
    ∀ s : EventTranslator,
      spanRun isThinkingStart isThinkingEnd s.isThinking
          (s.translateAll es).1 =
        some ((s.translateAll es).2).isThinking := by
  induction es with
  | nil => intro s; rfl
  | cons e rest ih =>
    intro s
    unfold EventTranslator.translateAll
    cases h1 : s.translate e with
    | mk o s1 =>
    cases h2 : s1.translateAll rest with
    | mk os s2 =>
    have f1 := translate_thinking_framing s e
    have f2 := ih s1
    rw [h1] at f1
    rw [h2] at f2
    simp only at f1 f2
    simp only [h1, h2]
    rw [spanRun_append, f1, Option.some_bind, f2]

end AdkTranslator

namespace AdkTranslator

theorem forceCloseStreaming_text (s : EventTranslator) :
    spanRun isTextStart isTextEnd s.isStreaming
      (s.forceCloseStreamingMessage).1 = some false := by
  cases hs : s.isStreaming <;>
    simp [EventTranslator.forceCloseStreamingMessage,
      EventTranslator.closeTextSpan, spanRun, isTextStart, isTextEnd, hs]

theorem forceCloseStreaming_thinking (s : EventTranslator) :
    (∀ ev ∈ (s.forceCloseStreamingMessage).1,
      isThinkingStart ev = false ∧ isThinkingEnd ev = false) ∧
    (s.forceCloseStreamingMessage).2.isThinking = s.isThinking := by
  cases hs : s.isStreaming <;>
    simp [EventTranslator.forceCloseStreamingMessage,
      EventTranslator.closeTextSpan, isThinkingStart, isThinkingEnd, hs]

theorem forceCloseThinking_thinking (s : EventTranslator) :
    spanRun isThinkingStart isThinkingEnd s.isThinking
      (s.forceCloseThinkingMessage).1 = some false := by
  cases hs : s.isThinking <;>
    simp [EventTranslator.forceCloseThinkingMessage,
      EventTranslator.closeThinkingSpan, spanRun, isThinkingStart,
      isThinkingEnd, hs]

theorem forceCloseThinking_text (s : EventTranslator) :
    ∀ ev ∈ (s.forceCloseThinkingMessage).1,
      isTextStart ev = false ∧ isTextEnd ev = false := by
  cases hs : s.isThinking <;>
    simp [EventTranslator.forceCloseThinkingMessage,
      EventTranslator.closeThinkingSpan, isTextStart, isTextEnd, hs]

/-- C1.  Framing well-formedness: for every finite sequence of `translate`
calls on a fresh translator, followed by the force-close operations at the
end of the run, the emitted protocol-event sequence is well bracketed for
text-message spans (each text-message-start is followed by exactly one
later text-message-end, with no other text-message-start strictly between
them — only content and non-text events may sit inside the span), and the
same bracketing holds for thinking spans. -/
theorem framing_well_formedness
    (cfg : List (String × List PredictMapping)) (es : List RawEvent) :
    WellFramed isTextStart isTextEnd (runTranslator cfg es) ∧
    WellFramed isThinkingStart isThinkingEnd (runTranslator cfg es) := by
  unfold runTranslator WellFramed
  cases h1 : (EventTranslator.mk0 cfg).translateAll es with
  | mk o s1 =>
  cases h2 : s1.forceCloseStreamingMessage with
  | mk oc s2 =>
  cases h3 : s2.forceCloseThinkingMessage with
  | mk ot s3 =>
  have t1 := translateAll_text_framing es (EventTranslator.mk0 cfg)
  have k1 := translateAll_thinking_framing es (EventTranslator.mk0 cfg)
  have t2 := forceCloseStreaming_text s1
  have k2 := forceCloseStreaming_thinking s1
  have t3 := forceCloseThinking_text s2
  have k3 := forceCloseThinking_thinking s2
  rw [h1] at t1 k1
  rw [h2] at t2 k2
  rw [h3] at t3 k3
  simp only at t1 k1 t2 k2 t3 k3
  simp only [h1, h2, h3]
  have hinit : (EventTranslator.mk0 cfg).isStreaming = false := rfl
  have hinit2 : (EventTranslator.mk0 cfg).isThinking = false := rfl
  rw [hinit] at t1
  rw [hinit2] at k1
  constructor
  · rw [spanRun_append, spanRun_append, t1, Option.some_bind, t2,
      Option.some_bind, spanRun_neutral _ _ ot (fun x hx => t3 x hx)]
  · rw [spanRun_append, spanRun_append, k1, Option.some_bind,
      spanRun_neutral _ _ oc (fun x hx => k2.1 x hx), Option.some_bind]
    rw [k2.2] at k3
    exact k3

end AdkTranslator

namespace AdkTranslator

/-- A Claude-style streaming chunk: one text part, `partial=true`,
`turn_complete` as given (the mock of `test_claude_streaming.py`). -/
def streamChunk (t : String) (tc : Bool := false) : RawEvent :=
  { parts := [{ text := some t }], preview := some true, turnComplete := some tc }

/-- A streaming chunk that ends the stream via `finish_reason="STOP"`
while still `partial=true`. -/
def streamChunkStop (t : String) : RawEvent :=
  { parts := [{ text := some t }], preview := some true,
    turnComplete := some false, finishReason := some "STOP" }

/-- Claude's final consolidated message: full text, `partial=None`,
`turn_complete=None`, `is_final_response()=true`. -/
def finalConsolidated (t : String) : RawEvent :=
  { parts := [{ text := some t }], isFinal := true }

/-- Translator state after the accumulated-text chunks "Hello",
"Hello there", "Hello there!" with the span still open
(`test_claude_accumulated_text_in_chunks`). -/
def afterAccumulatedOpen : EventTranslator :=
  ((EventTranslator.mk0 []).translateAll
    [streamChunk "Hello", streamChunk "Hello there",
     streamChunk "Hello there!"]).2

/-- Translator state after the same accumulated-text chunks, the span
closed early by a trailing `finish_reason` chunk
(`test_claude_accumulated_text_with_early_stream_end`). -/
def afterAccumulatedClosed : EventTranslator :=
  ((EventTranslator.mk0 []).translateAll
    [streamChunk "Hello", streamChunk "Hello there",
     streamChunk "Hello there!", streamChunkStop "Hello there!"]).2

/-- C2 counterexample.  In the accumulated-text run whose span is still
open when the final-response event "Hello there!" arrives, translating the
final event does not yield zero protocol events: it yields the
text-message-end that closes the span (the count of emitted events is 1,
not 0), so the claim as stated fails at this input. -/
theorem claim2_counterexample :
    (afterAccumulatedOpen.translate (finalConsolidated "Hello there!")).1 =
      [ProtocolEvent.textEnd 1] ∧
    ((afterAccumulatedOpen.translate
        (finalConsolidated "Hello there!")).1 = []) = False := by
  decide

/-- C2 (amended).  Accumulated-text duplicate suppression: for a run whose
streaming chunks each carry the full accumulated text so far ("Hello",
"Hello there", "Hello there!"), followed by a final-response event
carrying "Hello there!", translating the final event yields zero
text-message-content events — the duplicate comparison succeeds against
the streamed text as of span closure, not a blind concatenation of
deltas.  When the span is still open at the final event, the only emitted
event is the text-message-end closing the span; when the span was already
closed earlier by a finish_reason, the final event yields zero events. -/
theorem claim2_accumulated_dedup :
    (afterAccumulatedOpen.translate (finalConsolidated "Hello there!")).1 =
      [ProtocolEvent.textEnd 1] ∧
    (afterAccumulatedClosed.translate (finalConsolidated "Hello there!")).1 =
      [] := by
  decide

/-- The five-delta Claude run of
`test_claude_streaming_with_final_consolidated_message`: streaming deltas
"Hello", " there", ", how", " are you", "?" (the last closing the span via
`turn_complete=true`), followed by the final consolidated message. -/
def claudeFiveDeltaRun : List RawEvent :=
  [streamChunk "Hello", streamChunk " there", streamChunk ", how",
   streamChunk " are you", streamChunk "?" true,
   finalConsolidated "Hello there, how are you?"]

/-- C3.  Final-consolidated-message deduplication: translating the
five-delta run followed by the final-response event carrying the full
text emits in total exactly text-message-start, five text-message-content
events, and text-message-end — the final event contributes no additional
content event. -/
theorem claim3_no_duplicate_from_final :
    ((EventTranslator.mk0 []).translateAll claudeFiveDeltaRun).1 =
      [ProtocolEvent.textStart 1,
       ProtocolEvent.textContent 1 "Hello",
       ProtocolEvent.textContent 1 " there",
       ProtocolEvent.textContent 1 ", how",
       ProtocolEvent.textContent 1 " are you",
       ProtocolEvent.textContent 1 "?",
       ProtocolEvent.textEnd 1] := by
  decide

end AdkTranslator

namespace AdkTranslator

/-- The tool-call id carried by a tool-call-start/args/end/result event,
`none` for every other event kind. -/
def toolEventId : ProtocolEvent → Option String
  | .toolCallStart i _ _ => some i
  | .toolCallArgs i _ => some i
  | .toolCallEnd i => some i
  | .toolCallResult i _ => some i
  | _ => none

theorem textPhase_no_tool (s : EventTranslator) (e : RawEvent) :
    ∀ ev ∈ (s.translateTextPhase e).1, toolEventId ev = none := by
  cases hs : s.isStreaming <;>
    simp [EventTranslator.translateTextPhase, EventTranslator.closeTextSpan, hs] <;>
    split_ifs <;>
    simp [toolEventId]

theorem thinkingPhase_no_tool (s : EventTranslator) (e : RawEvent) :
    ∀ ev ∈ (s.translateThinkingPhase e).1, toolEventId ev = none := by
  cases hs : s.isThinking <;>
    simp [EventTranslator.translateThinkingPhase,
      EventTranslator.closeThinkingSpan, hs] <;>
    split_ifs <;>
    simp [toolEventId]

theorem textPhase_lro_preserved (s : EventTranslator) (e : RawEvent) :
    ((s.translateTextPhase e).2).longRunningToolIds = s.longRunningToolIds := by
  cases hs : s.isStreaming <;>
    simp [EventTranslator.translateTextPhase, EventTranslator.closeTextSpan, hs] <;>
    split_ifs <;>
    simp

theorem thinkingPhase_lro_preserved (s : EventTranslator) (e : RawEvent) :
    ((s.translateThinkingPhase e).2).longRunningToolIds =
      s.longRunningToolIds := by
  cases hs : s.isThinking <;>
    simp [EventTranslator.translateThinkingPhase,
      EventTranslator.closeThinkingSpan, hs] <;>
    split_ifs <;>
    simp

theorem oneCall_lro_preserved (s : EventTranslator) (fc : FunctionCall) :
    ((s.translateOneCall fc).2).longRunningToolIds = s.longRunningToolIds := by
  cases fc with
  | mk fid name args =>
    cases fid <;>
      simp [EventTranslator.translateOneCall, EventTranslator.effectiveId] <;>
      split_ifs <;>
      simp

theorem oneCall_tool_ids (s : EventTranslator) (fc : FunctionCall) :
    ∀ ev ∈ (s.translateOneCall fc).1, ∀ i, toolEventId ev = some i →
      s.longRunningToolIds.contains i = false := by
  cases fc with
  | mk fid name args =>
    cases fid <;>
      simp only [EventTranslator.translateOneCall, EventTranslator.effectiveId] <;>
      split_ifs <;>
      simp_all [toolEventId]

end AdkTranslator

namespace AdkTranslator

theorem callsList_tool_ids (l : List FunctionCall) :
    ∀ s : EventTranslator,
      (∀ ev ∈ (s.translateCallsList l).1, ∀ i, toolEventId ev = some i →
        s.longRunningToolIds.contains i = false) ∧
      ((s.translateCallsList l).2).longRunningToolIds =
        s.longRunningToolIds := by
  induction l with
  | nil => intro s; exact ⟨by simp [EventTranslator.translateCallsList], rfl⟩
  | cons fc rest ih =>
    intro s
    cases h1 : s.translateOneCall fc with
    | mk o1 s1 =>
    cases h2 : s1.translateCallsList rest with
    | mk o2 s2 =>
    have p1 := oneCall_tool_ids s fc
    have q1 := oneCall_lro_preserved s fc
    have pq2 := ih s1
    rw [h1] at p1 q1
    rw [h2] at pq2
    simp only at p1 q1 pq2
    constructor
    · intro ev hev i hi
      simp only [EventTranslator.translateCallsList, h1, h2, List.mem_append]
        at hev
      rcases hev with h | h
      · exact p1 ev h i hi
      · rw [← q1]; exact pq2.1 ev h i hi
    · simp only [EventTranslator.translateCallsList, h1, h2]
      rw [pq2.2, q1]

theorem callsPhase_tool_ids (s : EventTranslator) (e : RawEvent) :
    (∀ ev ∈ (s.translateCallsPhase e).1, ∀ i, toolEventId ev = some i →
      s.longRunningToolIds.contains i = false) ∧
    ((s.translateCallsPhase e).2).longRunningToolIds =
      s.longRunningToolIds := by
  simp only [EventTranslator.translateCallsPhase]
  split_ifs
  · exact ⟨by simp, rfl⟩
  · exact callsList_tool_ids e.getFunctionCalls s

theorem responsesPhase_tool_ids (s : EventTranslator) (e : RawEvent) :
    ∀ ev ∈ (s.translateResponsesPhase e).1, ∀ i, toolEventId ev = some i →
      s.longRunningToolIds.contains i = false := by
  intro ev hev i hi
  simp only [EventTranslator.translateResponsesPhase, List.mem_filterMap]
    at hev
  obtain ⟨fr, _, hfr⟩ := hev
  split_ifs at hfr with h
  simp only [Option.some.injEq] at hfr
  rw [← hfr] at hi
  simp only [toolEventId, Option.some.injEq] at hi
  rw [← hi]
  simpa using h

end AdkTranslator

namespace AdkTranslator

theorem translate_tool_ids_not_lro (s : EventTranslator) (e : RawEvent) :
    ∀ ev ∈ (s.translate e).1, ∀ i, toolEventId ev = some i →
      (s.accumulateLro e).longRunningToolIds.contains i = false := by
  unfold EventTranslator.translate
  cases h1 : (s.accumulateLro e).translateTextPhase e with
  | mk o1 s1 =>
  cases h2 : s1.translateThinkingPhase e with
  | mk o2 s2 =>
  cases h3 : s2.translateCallsPhase e with
  | mk o3 s3 =>
  cases h4 : s3.translateResponsesPhase e with
  | mk o4 s4 =>
  have n1 := textPhase_no_tool (s.accumulateLro e) e
  have l1 := textPhase_lro_preserved (s.accumulateLro e) e
  have n2 := thinkingPhase_no_tool s1 e
  have l2 := thinkingPhase_lro_preserved s1 e
  have n3 := callsPhase_tool_ids s2 e
  have n4 := responsesPhase_tool_ids s3 e
  rw [h1] at n1 l1
  rw [h2] at n2 l2
  rw [h3] at n3
  rw [h4] at n4
  simp only at n1 l1 n2 l2 n3 n4
  simp only [h1, h2, h3, h4]
  intro ev hev i hi
  simp only [List.append_assoc, List.mem_append] at hev
  rcases hev with h | h | h | h
  · exact absurd hi (by rw [n1 ev h]; simp)
  · exact absurd hi (by rw [n2 ev h]; simp)
  · have := n3.1 ev h i hi
    rw [l2, l1] at this
    exact this
  · have := n4 ev h i hi
    rw [n3.2, l2, l1] at this
    exact this

theorem lro_calls_only_lro_ids (s : EventTranslator) (e : RawEvent) :
    ∀ ev ∈ (s.translateLroFunctionCalls e).1, ∃ i, toolEventId ev = some i ∧
      (s.accumulateLro e).longRunningToolIds.contains i = true := by
  intro ev hev
  simp only [EventTranslator.translateLroFunctionCalls, List.mem_flatMap]
    at hev
  obtain ⟨fc, _, hfc⟩ := hev
  cases hid : fc.id with
  | none => rw [hid] at hfc; simp at hfc
  | some i =>
    rw [hid] at hfc
    simp only at hfc
    by_cases h : (s.accumulateLro e).longRunningToolIds.contains i = true
    · simp only [h, if_true, List.mem_cons, List.not_mem_nil, or_false] at hfc
      refine ⟨i, ?_, h⟩
      rcases hfc with h1 | h1 | h1 <;> subst h1 <;> rfl
    · rw [if_neg h] at hfc
      simp at hfc

/-- C4.  Long-running partition: a function-call id that is a member of
the translator's accumulated `long_running_tool_ids` set (after folding in
the current event's annotations) is never carried by any
tool-call-start/args/end or tool-call-result event that `translate`
emits; and every tool event that `translate_lro_function_calls` emits
carries an id drawn from the accumulated long-running set, so
non-long-running calls present in the same event are never emitted by the
long-running path. -/
theorem claim4_long_running_partition :
    (∀ (s : EventTranslator) (e : RawEvent) (cid : String),
        (s.accumulateLro e).longRunningToolIds.contains cid = true →
        ∀ ev ∈ (s.translate e).1, toolEventId ev ≠ some cid) ∧
    (∀ (s : EventTranslator) (e : RawEvent),
        ∀ ev ∈ (s.translateLroFunctionCalls e).1,
          ∃ i, toolEventId ev = some i ∧
            (s.accumulateLro e).longRunningToolIds.contains i = true) := by
  constructor
  · intro s e cid hcid ev hev hid
    have := translate_tool_ids_not_lro s e ev hev cid hid
    rw [hcid] at this
    cases this
  · exact lro_calls_only_lro_ids

/-- The mixed event of `test_translate_skips_lro_function_calls`: one
long-running call and one normal call, the long-running id annotated on
the event. -/
def mixedLroEvent : RawEvent :=
  { parts := [{ functionCall := some { id := some "tool-call-lro-1",
                                       name := "long_running_tool",
                                       args := "x: 1" } },
              { functionCall := some { id := some "tool-call-normal-2",
                                       name := "regular_tool",
                                       args := "y: 2" } }],
    preview := some false,
    longRunningToolIds := ["tool-call-lro-1"] }

/-- C4 witness: at the concrete mixed event, the normal call's start event
is in the `translate` output and its id differs from the long-running id,
and the long-running path's first event carries a long-running id. -/
theorem claim4_witness :
    toolEventId (ProtocolEvent.toolCallStart "tool-call-normal-2"
        "regular_tool" none) ≠ some "tool-call-lro-1" ∧
    ∃ i, toolEventId (ProtocolEvent.toolCallStart "tool-call-lro-1"
        "long_running_tool" none) = some i ∧
      ((EventTranslator.mk0 []).accumulateLro
          mixedLroEvent).longRunningToolIds.contains i = true := by
  constructor
  · exact claim4_long_running_partition.1 (EventTranslator.mk0 [])
      mixedLroEvent "tool-call-lro-1" (by decide)
      (ProtocolEvent.toolCallStart "tool-call-normal-2" "regular_tool" none)
      (by decide)
  · exact claim4_long_running_partition.2 (EventTranslator.mk0 [])
      mixedLroEvent
      (ProtocolEvent.toolCallStart "tool-call-lro-1" "long_running_tool" none)
      (by decide)

end AdkTranslator

namespace AdkTranslator

/-- Recognizer for the tool-call start/args/end triad events. -/
def isToolCallTriad : ProtocolEvent → Bool
  | .toolCallStart _ _ _ => true
  | .toolCallArgs _ _ => true
  | .toolCallEnd _ => true
  | _ => false

theorem triad_has_tool_id (ev : ProtocolEvent)
    (h : toolEventId ev = none) : isToolCallTriad ev = false := by
  cases ev <;> simp_all [toolEventId, isToolCallTriad]

theorem responsesPhase_no_triad (s : EventTranslator) (e : RawEvent) :
    ∀ ev ∈ (s.translateResponsesPhase e).1, isToolCallTriad ev = false := by
  intro ev hev
  simp only [EventTranslator.translateResponsesPhase, List.mem_filterMap]
    at hev
  obtain ⟨fr, _, hfr⟩ := hev
  split_ifs at hfr
  simp only [Option.some.injEq] at hfr
  rw [← hfr]
  rfl

theorem translate_partial_no_triad (s : EventTranslator) (e : RawEvent)
    (hp : e.preview = some true) :
    ∀ ev ∈ (s.translate e).1, isToolCallTriad ev = false := by
  unfold EventTranslator.translate
  cases h1 : (s.accumulateLro e).translateTextPhase e with
  | mk o1 s1 =>
  cases h2 : s1.translateThinkingPhase e with
  | mk o2 s2 =>
  cases h3 : s2.translateCallsPhase e with
  | mk o3 s3 =>
  cases h4 : s3.translateResponsesPhase e with
  | mk o4 s4 =>
  have n1 := textPhase_no_tool (s.accumulateLro e) e
  have n2 := thinkingPhase_no_tool s1 e
  have n4 := responsesPhase_no_triad s3 e
  have n3 : o3 = [] := by
    have : s2.translateCallsPhase e = ([], s2) := by
      simp [EventTranslator.translateCallsPhase, hp]
    rw [this] at h3
    exact (congrArg Prod.fst h3).symm
  rw [h1] at n1
  rw [h2] at n2
  rw [h4] at n4
  simp only at n1 n2 n4
  simp only [h1, h2, h3, h4, n3]
  intro ev hev
  simp only [List.append_assoc, List.append_nil, List.mem_append] at hev
  rcases hev with h | h | h
  · exact triad_has_tool_id ev (n1 ev h)
  · exact triad_has_tool_id ev (n2 ev h)
  · exact n4 ev h

/-- The streaming-preview event of
`test_translate_skips_function_calls_from_partial_events`: one function
call delivered with `partial=True`. -/
def previewCallEvent : RawEvent :=
  { parts := [{ functionCall := some { id := some "preview-tool-call-1",
                                       name := "some_tool",
                                       args := "x: 1" } }],
    preview := some true }

/-- The same call delivered later on a confirmed (`partial=False`)
event. -/
def confirmedCallEvent : RawEvent :=
  { parts := [{ functionCall := some { id := some "preview-tool-call-1",
                                       name := "some_tool",
                                       args := "x: 1" } }],
    preview := some false }

/-- An event with the `partial` attribute absent entirely
(`test_translate_handles_missing_partial_attribute`). -/
def legacyCallEvent : RawEvent :=
  { parts := [{ functionCall := some { id := some "legacy-tool-call-1",
                                       name := "legacy_tool",
                                       args := "y: 2" } }] }

/-- C5.  Partial preview suppression with default-false: every event with
`partial=true` yields no tool-call-start/args/end event from `translate`;
the same call id delivered later on a `partial=false` event yields
exactly one start/args/end triad over the two-event run; and an event
whose `partial` attribute is absent is treated as `partial=false`, so its
function call is emitted as the normal triad. -/
theorem claim5_partial_preview :
    (∀ (s : EventTranslator) (e : RawEvent), e.preview = some true →
        ∀ ev ∈ (s.translate e).1, isToolCallTriad ev = false) ∧
    ((EventTranslator.mk0 []).translateAll
        [previewCallEvent, confirmedCallEvent]).1 =
      [ProtocolEvent.toolCallStart "preview-tool-call-1" "some_tool" none,
       ProtocolEvent.toolCallArgs "preview-tool-call-1" "x: 1",
       ProtocolEvent.toolCallEnd "preview-tool-call-1"] ∧
    ((EventTranslator.mk0 []).translate legacyCallEvent).1 =
      [ProtocolEvent.toolCallStart "legacy-tool-call-1" "legacy_tool" none,
       ProtocolEvent.toolCallArgs "legacy-tool-call-1" "y: 2",
       ProtocolEvent.toolCallEnd "legacy-tool-call-1"] := by
  refine ⟨translate_partial_no_triad, by decide, by decide⟩

/-- A partial streaming event carrying both a text delta and a preview of
a function call. -/
def previewTextEvent : RawEvent :=
  { parts := [{ text := some "Hi" },
              { functionCall := some { id := some "preview-tool-call-1",
                                       name := "some_tool",
                                       args := "x: 1" } }],
    preview := some true }

/-- C5 witness: the universal part applied at the concrete partial event —
the text-start event it emits is not a tool-call triad event (and it is
the only kind of event the partial event produces). -/
theorem claim5_witness :
    previewTextEvent.preview = some true ∧
    isToolCallTriad (ProtocolEvent.textStart 1) = false :=
  ⟨rfl, claim5_partial_preview.1 (EventTranslator.mk0 []) previewTextEvent rfl
      (ProtocolEvent.textStart 1) (by decide)⟩

end AdkTranslator

namespace AdkTranslator

/-- Recognizer for text-message-start/content/end events. -/
def isTextMessageEvent : ProtocolEvent → Bool
  | .textStart _ => true
  | .textContent _ _ => true
  | .textEnd _ => true
  | _ => false

/-- Recognizer for tool-call-result events. -/
def isResultEvent : ProtocolEvent → Bool
  | .toolCallResult _ _ => true
  | _ => false

theorem string_join_all_empty (l : List String) (h : ∀ x ∈ l, x = "") :
    String.join l = "" := by
  have gen : ∀ (l' : List String) (acc : String), (∀ x ∈ l', x = "") →
      l'.foldl (fun r s => r ++ s) acc = acc := by
    intro l'
    induction l' with
    | nil => intro acc _; rfl
    | cons a as ih =>
      intro acc hall
      have ha := hall a (List.mem_cons_self a as)
      simp only [List.foldl_cons, ha]
      rw [String.append_empty]
      exact ih acc (fun x hx => hall x (List.mem_cons_of_mem a hx))
  exact gen l "" h

theorem combinedText_empty (e : RawEvent)
    (h : ∀ p ∈ e.parts, p.text = none ∨ p.text = some "") :
    e.combinedText = "" := by
  refine string_join_all_empty _ (fun x hx => ?_)
  simp only [List.mem_filterMap, List.mem_filter] at hx
  obtain ⟨p, ⟨hp, _⟩, hpx⟩ := hx
  rcases h p hp with h0 | h0 <;> rw [h0] at hpx
  · cases hpx
  · simpa using hpx.symm

theorem combinedThought_empty (e : RawEvent)
    (h : ∀ p ∈ e.parts, p.text = none ∨ p.text = some "") :
    e.combinedThought = "" := by
  refine string_join_all_empty _ (fun x hx => ?_)
  simp only [List.mem_filterMap, List.mem_filter] at hx
  obtain ⟨p, ⟨hp, _⟩, hpx⟩ := hx
  rcases h p hp with h0 | h0 <;> rw [h0] at hpx
  · cases hpx
  · simpa using hpx.symm

theorem oneCall_no_text_no_result (s : EventTranslator) (fc : FunctionCall) :
    ∀ ev ∈ (s.translateOneCall fc).1,
      isTextMessageEvent ev = false ∧ isResultEvent ev = false := by
  cases fc with
  | mk fid name args =>
    cases fid <;>
      simp only [EventTranslator.translateOneCall, EventTranslator.effectiveId] <;>
      split_ifs <;>
      simp_all [isTextMessageEvent, isResultEvent]

theorem callsList_no_text_no_result (l : List FunctionCall) :
    ∀ s : EventTranslator, ∀ ev ∈ (s.translateCallsList l).1,
      isTextMessageEvent ev = false ∧ isResultEvent ev = false := by
  induction l with
  | nil => intro s ev hev; simp [EventTranslator.translateCallsList] at hev
  | cons fc rest ih =>
    intro s ev hev
    simp only [EventTranslator.translateCallsList, List.mem_append] at hev
    rcases hev with h | h
    · exact oneCall_no_text_no_result s fc ev h
    · exact ih _ ev h

theorem callsPhase_no_text_no_result (s : EventTranslator) (e : RawEvent) :
    ∀ ev ∈ (s.translateCallsPhase e).1,
      isTextMessageEvent ev = false ∧ isResultEvent ev = false := by
  simp only [EventTranslator.translateCallsPhase]
  split_ifs
  · simp
  · exact callsList_no_text_no_result e.getFunctionCalls s

/-- C6.  Tool result survives empty text: for every event whose
`content.parts` carry no non-empty text but whose function responses are
exactly one non-long-running response, `translate` emits zero
text-message events and exactly one tool-call-result event carrying that
response's id — the function-response phase runs after the (empty) text
phase and is never skipped. -/
theorem claim6_tool_result_survives_empty_text (s : EventTranslator)
    (e : RawEvent) (fr : FunctionResponse)
    (htext : ∀ p ∈ e.parts, p.text = none ∨ p.text = some "")
    (hresp : e.getFunctionResponses = [fr])
    (hlro : (s.accumulateLro e).longRunningToolIds.contains fr.id = false) :
    (s.translate e).1.filter isTextMessageEvent = [] ∧
    (s.translate e).1.filter isResultEvent =
      [ProtocolEvent.toolCallResult fr.id fr.response] := by
  unfold EventTranslator.translate
  have htp : (s.accumulateLro e).translateTextPhase e =
      ([], s.accumulateLro e) := by
    unfold EventTranslator.translateTextPhase
    rw [combinedText_empty e htext]
    rfl
  have hth : (s.accumulateLro e).translateThinkingPhase e =
      ([], s.accumulateLro e) := by
    unfold EventTranslator.translateThinkingPhase
    rw [combinedThought_empty e htext]
    rfl
  cases h3 : (s.accumulateLro e).translateCallsPhase e with
  | mk o3 s3 =>
  have hs3 : s3.longRunningToolIds =
      (s.accumulateLro e).longRunningToolIds := by
    have := (callsPhase_tool_ids (s.accumulateLro e) e).2
    rw [h3] at this
    exact this
  have n3 := callsPhase_no_text_no_result (s.accumulateLro e) e
  rw [h3] at n3
  simp only at n3 hs3
  have h4 : s3.translateResponsesPhase e =
      ([ProtocolEvent.toolCallResult fr.id fr.response], s3) := by
    unfold EventTranslator.translateResponsesPhase
    rw [hresp]
    have hmem : fr.id ∉ (s.accumulateLro e).longRunningToolIds := by
      simpa using hlro
    simp [hs3, hmem]
  simp only [htp, hth, h3, h4]
  simp only [List.nil_append, List.filter_append]
  constructor
  · rw [List.filter_eq_nil_iff.mpr (fun ev hev => by
        simp [(n3 ev hev).1]),
      show List.filter isTextMessageEvent
        [ProtocolEvent.toolCallResult fr.id fr.response] = [] from rfl]
    rfl
  · rw [List.filter_eq_nil_iff.mpr (fun ev hev => by
        simp [(n3 ev hev).2])]
    rfl

/-- The skip-summarization event of
`test_skip_summarization_emits_tool_result_no_text`: no text part, one
function response. -/
def skipSummarizationEvent : RawEvent :=
  { parts := [{ functionResponse := some { id := "tool-123",
                                           response := "ok" } }],
    preview := some false, turnComplete := some true,
    finishReason := some "STOP", isFinal := true }

/-- C6 witness: at the concrete skip-summarization event the translator
emits no text-message event and exactly the one tool-call-result. -/
theorem claim6_witness :
    ((EventTranslator.mk0 []).translate skipSummarizationEvent).1.filter
        isTextMessageEvent = [] ∧
    ((EventTranslator.mk0 []).translate skipSummarizationEvent).1.filter
        isResultEvent = [ProtocolEvent.toolCallResult "tool-123" "ok"] :=
  claim6_tool_result_survives_empty_text (EventTranslator.mk0 [])
    skipSummarizationEvent { id := "tool-123", response := "ok" }
    (by decide) (by decide) (by decide)

end AdkTranslator

namespace AdkTranslator

/-- Recognizer for a text-message-content event whose delta is empty —
emitting one is a contract violation (spec §6). -/
def emptyTextContent : ProtocolEvent → Bool
  | .textContent _ d => d.isEmpty
  | _ => false

theorem not_text_no_empty_content (ev : ProtocolEvent)
    (h : isTextMessageEvent ev = false) : emptyTextContent ev = false := by
  cases ev <;> simp_all [isTextMessageEvent, emptyTextContent]

theorem textPhase_no_empty_content (s : EventTranslator) (e : RawEvent) :
    ∀ ev ∈ (s.translateTextPhase e).1, emptyTextContent ev = false := by
  cases hs : s.isStreaming <;>
    simp only [EventTranslator.translateTextPhase,
      EventTranslator.closeTextSpan, hs] <;>
    split_ifs <;>
    simp_all [emptyTextContent]

theorem thinkingPhase_no_textmsg (s : EventTranslator) (e : RawEvent) :
    ∀ ev ∈ (s.translateThinkingPhase e).1, isTextMessageEvent ev = false := by
  cases hs : s.isThinking <;>
    simp [EventTranslator.translateThinkingPhase,
      EventTranslator.closeThinkingSpan, hs] <;>
    split_ifs <;>
    simp [isTextMessageEvent]

theorem translate_no_empty_delta (s : EventTranslator) (e : RawEvent) :
    ∀ ev ∈ (s.translate e).1, emptyTextContent ev = false := by
  unfold EventTranslator.translate
  cases h1 : (s.accumulateLro e).translateTextPhase e with
  | mk o1 s1 =>
  cases h2 : s1.translateThinkingPhase e with
  | mk o2 s2 =>
  cases h3 : s2.translateCallsPhase e with
  | mk o3 s3 =>
  cases h4 : s3.translateResponsesPhase e with
  | mk o4 s4 =>
  have n1 := textPhase_no_empty_content (s.accumulateLro e) e
  have n2 := thinkingPhase_no_textmsg s1 e
  have n3 := callsPhase_no_text_no_result s2 e
  have n4 := responsesPhase_no_triad s3 e
  have n4r : ∀ ev ∈ (s3.translateResponsesPhase e).1,
      isTextMessageEvent ev = false := by
    intro ev hev
    simp only [EventTranslator.translateResponsesPhase,
      List.mem_filterMap] at hev
    obtain ⟨fr, _, hfr⟩ := hev
    split_ifs at hfr
    simp only [Option.some.injEq] at hfr
    rw [← hfr]
    rfl
  rw [h1] at n1
  rw [h2] at n2
  rw [h3] at n3
  rw [h4] at n4r
  simp only at n1 n2 n3 n4r
  simp only [h1, h2, h3, h4]
  intro ev hev
  simp only [List.append_assoc, List.mem_append] at hev
  rcases hev with h | h | h | h
  · exact n1 ev h
  · exact not_text_no_empty_content ev (n2 ev h)
  · exact not_text_no_empty_content ev ((n3 ev h).1)
  · exact not_text_no_empty_content ev (n4r ev h)

/-- The whitespace-only final event of
`test_whitespace_only_text_not_filtered`. -/
def whitespaceEvent : RawEvent :=
  { parts := [{ text := some "   " }], preview := some false,
    turnComplete := some true, finishReason := some "STOP",
    isFinal := true }

/-- The mixed empty-and-valid-parts final event of
`test_mixed_empty_and_valid_text_parts`. -/
def mixedTextEvent : RawEvent :=
  { parts := [{ text := some "" }, { text := some "Valid text" },
              { text := some "" }],
    preview := some false, turnComplete := some true,
    finishReason := some "STOP", isFinal := true }

/-- C7.  Non-empty delta contract: every text-message-content event that
`translate` emits carries a non-empty delta; parts whose text is `None`
or the empty string produce no content event (the mixed-parts event
yields content only for its valid part); and a whitespace-only part is
treated as valid content and emitted verbatim as a delta. -/
theorem claim7_nonempty_delta :
    (∀ (s : EventTranslator) (e : RawEvent),
        ∀ ev ∈ (s.translate e).1, emptyTextContent ev = false) ∧
    ((EventTranslator.mk0 []).translate mixedTextEvent).1 =
      [ProtocolEvent.textStart 1,
       ProtocolEvent.textContent 1 "Valid text",
       ProtocolEvent.textEnd 1] ∧
    ((EventTranslator.mk0 []).translate whitespaceEvent).1 =
      [ProtocolEvent.textStart 1,
       ProtocolEvent.textContent 1 "   ",
       ProtocolEvent.textEnd 1] := by
  refine ⟨translate_no_empty_delta, by decide, by decide⟩

/-- C7 witness: the universal part applied at the whitespace event — its
content event "   " is not an empty-delta violation. -/
theorem claim7_witness :
    emptyTextContent (ProtocolEvent.textContent 1 "   ") = false :=
  claim7_nonempty_delta.1 (EventTranslator.mk0 []) whitespaceEvent
    (ProtocolEvent.textContent 1 "   ") (by decide)

end AdkTranslator

namespace AdkTranslator

theorem textPhase_cfg (s : EventTranslator) (e : RawEvent) :
    ((s.translateTextPhase e).2).predictStateByTool = s.predictStateByTool := by
  cases hs : s.isStreaming <;>
    simp [EventTranslator.translateTextPhase, EventTranslator.closeTextSpan, hs] <;>
    split_ifs <;>
    simp

theorem thinkingPhase_cfg (s : EventTranslator) (e : RawEvent) :
    ((s.translateThinkingPhase e).2).predictStateByTool =
      s.predictStateByTool := by
  cases hs : s.isThinking <;>
    simp [EventTranslator.translateThinkingPhase,
      EventTranslator.closeThinkingSpan, hs] <;>
    split_ifs <;>
    simp

theorem oneCall_cfg (s : EventTranslator) (fc : FunctionCall) :
    ((s.translateOneCall fc).2).predictStateByTool = s.predictStateByTool := by
  cases fc with
  | mk fid name args =>
    cases fid <;>
      simp [EventTranslator.translateOneCall, EventTranslator.effectiveId] <;>
      split_ifs <;>
      simp

theorem callsList_cfg (l : List FunctionCall) :
    ∀ s : EventTranslator,
      ((s.translateCallsList l).2).predictStateByTool =
        s.predictStateByTool := by
  induction l with
  | nil => intro s; rfl
  | cons fc rest ih =>
    intro s
    cases h1 : s.translateOneCall fc with
    | mk o1 s1 =>
    have c1 := oneCall_cfg s fc
    have c2 := ih s1
    rw [h1] at c1
    simp only at c1
    simp only [EventTranslator.translateCallsList, h1]
    rw [c2, c1]

theorem callsPhase_cfg (s : EventTranslator) (e : RawEvent) :
    ((s.translateCallsPhase e).2).predictStateByTool =
      s.predictStateByTool := by
  simp only [EventTranslator.translateCallsPhase]
  split_ifs
  · rfl
  · exact callsList_cfg e.getFunctionCalls s

theorem translate_cfg (s : EventTranslator) (e : RawEvent) :
    ((s.translate e).2).predictStateByTool = s.predictStateByTool := by
  unfold EventTranslator.translate
  cases h1 : (s.accumulateLro e).translateTextPhase e with
  | mk o1 s1 =>
  cases h2 : s1.translateThinkingPhase e with
  | mk o2 s2 =>
  cases h3 : s2.translateCallsPhase e with
  | mk o3 s3 =>
  cases h4 : s3.translateResponsesPhase e with
  | mk o4 s4 =>
  have c1 := textPhase_cfg (s.accumulateLro e) e
  have c2 := thinkingPhase_cfg s1 e
  have c3 := callsPhase_cfg s2 e
  have c4 := responsesPhase_neutral s3 e
  rw [h1] at c1
  rw [h2] at c2
  rw [h3] at c3
  rw [h4] at c4
  simp only at c1 c2 c3 c4
  simp only [h1, h2, h3, h4]
  rw [c4.2, c3, c2, c1]
  rfl

theorem translateAll_cfg (es : List RawEvent) :
    ∀ s : EventTranslator,
      ((s.translateAll es).2).predictStateByTool = s.predictStateByTool := by
  induction es with
  | nil => intro s; rfl
  | cons e rest ih =>
    intro s
    cases h1 : s.translate e with
    | mk o s1 =>
    have c1 := translate_cfg s e
    have c2 := ih s1
    rw [h1] at c1
    simp only at c1
    simp only [EventTranslator.translateAll, h1]
    rw [c2, c1]

/-- One complete run on an existing translator: every event translated in
order, then both force-close operations, returning the emitted events and
the final state. -/
def EventTranslator.runOnce (s : EventTranslator) (es : List RawEvent) :
    List ProtocolEvent × EventTranslator :=
  let (o, s1) := s.translateAll es
  let (oc, s2) := s1.forceCloseStreamingMessage
  let (ot, s3) := s2.forceCloseThinkingMessage
  (o ++ oc ++ ot, s3)

theorem runOnce_cfg (s : EventTranslator) (es : List RawEvent) :
    ((s.runOnce es).2).predictStateByTool = s.predictStateByTool := by
  unfold EventTranslator.runOnce
  cases h1 : s.translateAll es with
  | mk o s1 =>
  have c1 := translateAll_cfg es s
  rw [h1] at c1
  simp only at c1
  simp only [h1]
  cases hs1 : s1.isStreaming <;>
    cases hs2 : s1.isThinking <;>
    simp [EventTranslator.forceCloseStreamingMessage,
      EventTranslator.forceCloseThinkingMessage,
      EventTranslator.closeTextSpan, EventTranslator.closeThinkingSpan,
      hs1, hs2, c1]

/-- The same input scenario run twice on one translator instance, with
`reset()` called between the two runs (the repeated-run scenario of
`test_claude_repeated_runs_no_duplicate`). -/
def twoRunsWithReset (cfg : List (String × List PredictMapping))
    (es : List RawEvent) : List ProtocolEvent × List ProtocolEvent :=
  let (o1, s1) := (EventTranslator.mk0 cfg).runOnce es
  let (o2, _) := (s1.reset).runOnce es
  (o1, o2)

/-- C8.  Reset isolates runs: `reset()` clears every mutable per-run field
of the translator state (streaming flags, current and last streamed text,
seen tool-call ids, predictive-state-sent set, long-running id set, and
the thinking equivalents) while leaving the `predict_state_by_tool`
configuration unchanged; consequently running the same input scenario
twice on one instance with `reset()` between the runs produces the same
number of protocol events in each run. -/
theorem claim8_reset_isolates_runs :
    (∀ s : EventTranslator,
      (s.reset).isStreaming = false ∧
      (s.reset).currentStreamText = "" ∧
      (s.reset).lastStreamedText = "" ∧
      (s.reset).isThinking = false ∧
      (s.reset).currentThinkingText = "" ∧
      (s.reset).seenToolCallIds = [] ∧
      (s.reset).predictStateSent = [] ∧
      (s.reset).longRunningToolIds = [] ∧
      (s.reset).predictStateByTool = s.predictStateByTool) ∧
    (∀ (cfg : List (String × List PredictMapping)) (es : List RawEvent),
      ((twoRunsWithReset cfg es).2).length =
        ((twoRunsWithReset cfg es).1).length) := by
  constructor
  · intro s
    exact ⟨rfl, rfl, rfl, rfl, rfl, rfl, rfl, rfl, rfl⟩
  · intro cfg es
    unfold twoRunsWithReset
    cases h1 : (EventTranslator.mk0 cfg).runOnce es with
    | mk o1 s1 =>
    have hcfg := runOnce_cfg (EventTranslator.mk0 cfg) es
    rw [h1] at hcfg
    simp only at hcfg
    have hreset : s1.reset = EventTranslator.mk0 cfg := by
      unfold EventTranslator.reset
      rw [hcfg]
      rfl
    simp only [hreset, h1]

end AdkTranslator

namespace AdkEndpoint

/-- One item yielded onto the SSE response by `event_generator`
(`endpoint.py`): a successfully encoded agent event, an encoded
`RunErrorEvent` with its error code, or the raw fallback SSE string used
when even the error event cannot be encoded. -/
inductive SSEItem where
  | payload (s : String)
  | errorEvent (code : String) (message : String)
  | basicError (s : String)
deriving DecidableEq, Repr

/-- The raw fallback SSE string of the encoding-failure path. -/
def basicEncodingError : String :=
  "event: error\ndata: \x7b\"error\": \"Event encoding failed\"\x7d\n\n"

/-- The raw fallback SSE string of the agent-failure path. -/
def basicAgentError : String :=
  "event: error\ndata: \x7b\"error\": \"Agent execution failed\"\x7d\n\n"

/-- `event_generator` of `endpoint.py` (lines 77–120): agent events are
abstracted as numeric handles; `encode` models `encoder.encode` (`none` =
raises); `errEncodeOk` models whether encoding a `RunErrorEvent`
succeeds; the agent stream yields `events` and then, when `agentError`
is set, raises out of the `async for`.  On a per-event encoding failure
the generator yields one error item and breaks; on an agent failure it
yields one error item after the successfully encoded events. -/
def eventGenerator (encode : Nat → Option String) (errEncodeOk : Bool) :
    List Nat → Option String → List SSEItem
  | [], none => []
  | [], some msg =>
    if errEncodeOk then
      [SSEItem.errorEvent "AGENT_ERROR" ("Agent execution failed: " ++ msg)]
    else
      [SSEItem.basicError basicAgentError]
  | e :: rest, aerr =>
    match encode e with
    | some sEnc =>
      SSEItem.payload sEnc :: eventGenerator encode errEncodeOk rest aerr
    | none =>
      if errEncodeOk then
        [SSEItem.errorEvent "ENCODING_ERROR" "Event encoding failed"]
      else
        [SSEItem.basicError basicEncodingError]

/-- Recognizer for an encoded run-error event carrying the given code. -/
def isErrorEventWithCode (code : String) : SSEItem → Bool
  | .errorEvent c _ => c == code
  | _ => false

/-- C9 counterexample.  When encoding the event fails and encoding the
`RunErrorEvent` also fails, the generator yields the raw fallback SSE
string and no run-error protocol event with code "ENCODING_ERROR" at all
— so the claim that an encoding exception is always reported as a
run-error event with that code fails at this input. -/
theorem claim9_counterexample :
    eventGenerator (fun _ => none) false [0] none =
      [SSEItem.basicError basicEncodingError] ∧
    (eventGenerator (fun _ => none) false [0] none).filter
      (isErrorEventWithCode "ENCODING_ERROR") = [] := by
  decide

/-- C9 (amended).  Distinct error codes on failure, provided the
`RunErrorEvent` itself encodes successfully: when encoding one agent
event raises, the generator yields the successfully encoded prefix, then
exactly one run-error event with code "ENCODING_ERROR", and stops the
stream (later events are dropped); when the agent's run itself raises,
the generator yields all encoded events and then exactly one run-error
event with code "AGENT_ERROR" as the final item.  (If encoding the error
event also fails, a raw SSE error string is yielded instead.) -/
theorem claim9_distinct_error_codes :
    (∀ (encode : Nat → Option String) (pre : List Nat) (e : Nat)
        (post : List Nat) (aerr : Option String),
        (∀ x ∈ pre, (encode x).isSome) → encode e = none →
        eventGenerator encode true (pre ++ e :: post) aerr =
          pre.map (fun x => SSEItem.payload ((encode x).getD "")) ++
            [SSEItem.errorEvent "ENCODING_ERROR" "Event encoding failed"]) ∧
    (∀ (encode : Nat → Option String) (events : List Nat) (msg : String),
        (∀ x ∈ events, (encode x).isSome) →
        eventGenerator encode true events (some msg) =
          events.map (fun x => SSEItem.payload ((encode x).getD "")) ++
            [SSEItem.errorEvent "AGENT_ERROR"
              ("Agent execution failed: " ++ msg)]) := by
  constructor
  · intro encode pre e post aerr hpre he
    induction pre with
    | nil => simp [eventGenerator, he]
    | cons x xs ih =>
      have hx := hpre x (List.mem_cons_self x xs)
      obtain ⟨v, hv⟩ := Option.isSome_iff_exists.mp hx
      simp only [List.cons_append, eventGenerator, hv, List.map_cons,
        Option.getD_some, List.append_eq]
      rw [ih (fun y hy => hpre y (List.mem_cons_of_mem x hy))]
  · intro encode events msg hall
    induction events with
    | nil => simp [eventGenerator]
    | cons x xs ih =>
      have hx := hall x (List.mem_cons_self x xs)
      obtain ⟨v, hv⟩ := Option.isSome_iff_exists.mp hx
      simp only [eventGenerator, hv, List.map_cons, Option.getD_some]
      rw [ih (fun y hy => hall y (List.mem_cons_of_mem x hy))]
      simp

/-- C9 witness: both amended branches applied at concrete inputs — one
event that encodes followed by one that fails yields the encoded payload
then the ENCODING_ERROR event; a fully encoded stream whose agent raises
"boom" ends with the AGENT_ERROR event. -/
theorem claim9_witness :
    eventGenerator (fun n => if n = 0 then some "ok" else none) true
        [0, 1] none =
      [SSEItem.payload "ok",
       SSEItem.errorEvent "ENCODING_ERROR" "Event encoding failed"] ∧
    eventGenerator (fun _ => some "ok") true [0] (some "boom") =
      [SSEItem.payload "ok",
       SSEItem.errorEvent "AGENT_ERROR" "Agent execution failed: boom"] := by
  constructor
  · have := claim9_distinct_error_codes.1
      (fun n => if n = 0 then some "ok" else none) [0] 1 [] none
      (by decide) (by decide)
    simpa using this
  · have := claim9_distinct_error_codes.2 (fun _ => some "ok") [0] "boom"
      (by decide)
    simpa using this

end AdkEndpoint

namespace Strands

/-- A chat message of the run input (`RunAgentInput.messages`). -/
structure Message where
  role : String
  content : String
deriving DecidableEq, Repr

/-- The AG-UI events `StrandsAgent.run` can yield (`agent.py`).  Message
payloads that the run only forwards are abstracted: a messages snapshot
is keyed by the tool-call id it reports, and events yielded by a
configured `custom_result_handler` are opaque tagged items. -/
inductive AGEvent where
  | runStarted (threadId runId : String)
  | runFinished (threadId runId : String)
  | runError (message code : String)
  | stateSnapshot (snapshot : List (String × String))
  | messagesSnapshot (toolCallId : String)
  | textStart (messageId : String)
  | textContent (messageId : String) (delta : String)
  | textEnd (messageId : String)
  | toolCallStart (toolCallId toolCallName parentMessageId : String)
  | toolCallArgs (toolCallId : String) (delta : String)
  | toolCallEnd (toolCallId : String)
  | custom (name : String) (payload : List AdkTranslator.PredictMapping)
  | handlerEvent (tag : Nat)
deriving DecidableEq, Repr

/-- A `current_tool_use` payload: optional name and Strands id, with the
tool input already serialized (`json.dumps` in the source). -/
structure ToolUse where
  name : Option String := none
  toolUseId : Option String := none
  args : String := ""
deriving DecidableEq, Repr

/-- One `toolResult` item of a user message: the originating id and the
parsed result payload (`none` models a missing id or a result whose
content yielded no data — the source skips the item then). -/
structure ToolResultItem where
  toolUseId : Option String := none
  resultData : Option String := none
deriving DecidableEq, Repr

/-- One event of the Strands agent stream, by the branch of the
`async for` body that consumes it: lifecycle events are skipped,
`complete`/`force_stop` break the loop, `data` streams text, a user
message carries tool results, `current_tool_use` carries a tool call,
and anything else falls through all branches. -/
inductive StrandsEvent where
  | lifecycle
  | complete
  | data (text : String)
  | userMessage (items : List ToolResultItem)
  | toolUse (tu : ToolUse)
  | other
deriving DecidableEq, Repr

/-- A configured per-tool behavior (`config.py` / `tool_behaviors`).
Callbacks are modelled as pure functions of the serialized
arguments/result they receive; an args streamer returns the chunks it
yields and whether it raised afterwards (the source then falls back to
one args event with the full serialized arguments). -/
structure ToolBehavior where
  skipMessagesSnapshot : Bool := false
  stateFromArgs : Option (String → Option (List (String × String))) := none
  stateFromResult : Option (String → Option (List (String × String))) := none
  customResultHandler : Option (String → List Nat) := none
  stopStreamingAfterResult : Bool := false
  predictState : List AdkTranslator.PredictMapping := []
  argsStreamer : Option (String → List String × Bool) := none
  continueAfterFrontendCall : Bool := false

/-- The agent configuration consumed by `run`. -/
structure StrandsConfig where
  toolBehaviors : List (String × ToolBehavior) := []

/-- The fields of `RunAgentInput` that `run` consumes. -/
structure RunInput where
  threadId : String := "t"
  runId : String := "r"
  state : Option (List (String × String)) := none
  tools : List String := []
  messages : List Message := []

/-- The loop-local mutable state of `run`: whether a text message is
open, whether text streaming was stopped by a behavior, the
`tool_calls_seen` map (id ↦ name and serialized args), and the counter
modelling fresh uuid4 allocation. -/
structure LoopState where
  messageStarted : Bool := false
  stopTextStreaming : Bool := false
  seenTools : List (String × String × String) := []
  nextId : Nat := 0

/-- `has_pending_tool_result`: the last input message has role "tool". -/
def hasPendingToolResult (inp : RunInput) : Bool :=
  match inp.messages.getLast? with
  | some m => m.role == "tool"
  | none => false

/-- The `"data"` branch of the loop: skipped when the chunk is falsy or
streaming was stopped; otherwise opens the message on first text and
yields the content delta. -/
def processData (messageId : String) (ls : LoopState) (text : String) :
    List AGEvent × LoopState :=
  if text = "" then ([], ls)
  else if ls.stopTextStreaming then ([], ls)
  else if ls.messageStarted then
    ([AGEvent.textContent messageId text], ls)
  else
    ([AGEvent.textStart messageId, AGEvent.textContent messageId text],
     { ls with messageStarted := true })

/-- The optional messages-snapshot event of the result branch: emitted
unless a tool result is pending or the behavior suppresses it. -/
def snapshotEventsOf (emit : Bool) (tid : String) : List AGEvent :=
  if emit then [AGEvent.messagesSnapshot tid] else []

/-- The optional state-snapshot event produced by a behavior callback:
nothing when no callback is configured or the callback returned no
snapshot. -/
def stateEventsOf (o : Option (Option (List (String × String)))) :
    List AGEvent :=
  match o with
  | some (some snap) => [AGEvent.stateSnapshot snap]
  | _ => []

/-- The opaque events yielded by a configured custom result handler. -/
def handlerEventsOf (o : Option (List Nat)) : List AGEvent :=
  match o with
  | some tags => tags.map AGEvent.handlerEvent
  | none => []

/-- Whether an optional behavior sets the given flag. -/
def behaviorFlag (b : Option ToolBehavior) (f : ToolBehavior → Bool) :
    Bool :=
  match b with
  | some bb => f bb
  | none => false

/-- One `toolResult` item of the user-message branch: emit the messages
snapshot unless suppressed, then the behavior's state snapshot and
custom handler events, and on `stop_streaming_after_result` close the
open text message and halt the whole event stream. -/
def processResultItem (cfg : StrandsConfig) (hasPending : Bool)
    (messageId : String) (ls : LoopState) (item : ToolResultItem) :
    List AGEvent × LoopState × Bool :=
  match item.toolUseId, item.resultData with
  | some tid, some rdata =>
    let info := ls.seenTools.lookup tid
    let behavior := match info with
      | some i => cfg.toolBehaviors.lookup i.1
      | none => none
    let snapEvents := snapshotEventsOf
      (!hasPending && !(behaviorFlag behavior (·.skipMessagesSnapshot))) tid
    let stateEvents := stateEventsOf
      ((behavior.bind (·.stateFromResult)).map (fun f => f rdata))
    let handlerEvents := handlerEventsOf
      ((behavior.bind (·.customResultHandler)).map (fun h => h rdata))
    if behaviorFlag behavior (·.stopStreamingAfterResult) then
      let endEvents :=
        if ls.messageStarted then [AGEvent.textEnd messageId] else []
      (snapEvents ++ stateEvents ++ handlerEvents ++ endEvents,
       { ls with stopTextStreaming := true, messageStarted := false }, true)
    else
      (snapEvents ++ stateEvents ++ handlerEvents, ls, false)
  | _, _ => ([], ls, false)

/-- The user-message branch: process the `toolResult` items in order,
stopping at the first one that halts the stream. -/
def processResultItems (cfg : StrandsConfig) (hasPending : Bool)
    (messageId : String) (ls : LoopState) :
    List ToolResultItem → List AGEvent × LoopState × Bool
  | [] => ([], ls, false)
  | item :: rest =>
    let (out, ls1, brk) := processResultItem cfg hasPending messageId ls item
    if brk then (out, ls1, true)
    else
      let (outs, ls2, brk2) :=
        processResultItems cfg hasPending messageId ls1 rest
      (out ++ outs, ls2, brk2)

/-- The one-time predictive-state custom event of a behavior with a
non-empty `predict_state` configuration. -/
def predictEventsOf (b : Option ToolBehavior) : List AGEvent :=
  match b with
  | some bb =>
    if bb.predictState.isEmpty then []
    else [AGEvent.custom "PredictState" bb.predictState]
  | none => []

/-- The tool-call-args events of one call: the configured streamer's
chunks (with the full serialized arguments appended when the streamer
raised), or the single full-arguments event when none is configured. -/
def argsEventsOf (tid args : String) (o : Option (List String × Bool)) :
    List AGEvent :=
  match o with
  | some (chunks, raised) =>
    chunks.map (AGEvent.toolCallArgs tid) ++
      (if raised then [AGEvent.toolCallArgs tid args] else [])
  | none => [AGEvent.toolCallArgs tid args]

/-- The resolved tool-call id of the `current_tool_use` branch: a fresh
uuid for frontend tools (or when Strands supplied no id), the Strands id
otherwise, together with the updated uuid counter. -/
def resolveToolUseId (isFrontend : Bool) (ls : LoopState)
    (strandsId : Option String) : String × LoopState :=
  if isFrontend then
    ("uuid-" ++ toString ls.nextId, { ls with nextId := ls.nextId + 1 })
  else match strandsId with
    | some i => (i, ls)
    | none =>
      ("uuid-" ++ toString ls.nextId, { ls with nextId := ls.nextId + 1 })

/-- The body of the `current_tool_use` branch once the id is resolved:
record an unseen call, emit the behavior's state snapshot and
predictive-state custom event, and unless a tool result is already
pending emit the tool-call triad; a frontend tool without
`continue_after_frontend_call` then breaks the loop. -/
def processToolUseCore (cfg : StrandsConfig) (isFrontend hasPending : Bool)
    (messageId : String) (ls : LoopState) (toolName tid args : String) :
    List AGEvent × LoopState × Bool :=
  if toolName = "" then ([], ls, false)
  else if (ls.seenTools.lookup tid).isSome then ([], ls, false)
  else
    let ls := { ls with seenTools := (tid, toolName, args) :: ls.seenTools }
    let behavior := cfg.toolBehaviors.lookup toolName
    let stateEvents := stateEventsOf
      ((behavior.bind (·.stateFromArgs)).map (fun f => f args))
    let predictEvents := predictEventsOf behavior
    if hasPending then (stateEvents ++ predictEvents, ls, false)
    else
      let argsEvents := argsEventsOf tid args
        ((behavior.bind (·.argsStreamer)).map (fun f => f args))
      let brk := isFrontend &&
        !(behaviorFlag behavior (·.continueAfterFrontendCall))
      (stateEvents ++ predictEvents ++
         [AGEvent.toolCallStart tid toolName messageId] ++ argsEvents ++
         [AGEvent.toolCallEnd tid], ls, brk)

/-- The `current_tool_use` branch of the loop. -/
def processToolUse (cfg : StrandsConfig) (frontendNames : List String)
    (hasPending : Bool) (messageId : String) (ls : LoopState)
    (tu : ToolUse) : List AGEvent × LoopState × Bool :=
  let toolName := tu.name.getD ""
  let isFrontend := frontendNames.contains toolName
  let (tid, ls1) := resolveToolUseId isFrontend ls tu.toolUseId
  processToolUseCore cfg isFrontend hasPending messageId ls1 toolName tid
    tu.args

/-- One iteration of the `async for` body of `run`. -/
def strandsStep (cfg : StrandsConfig) (frontendNames : List String)
    (hasPending : Bool) (messageId : String) (ls : LoopState) :
    StrandsEvent → List AGEvent × LoopState × Bool
  | .lifecycle => ([], ls, false)
  | .other => ([], ls, false)
  | .complete => ([], ls, true)
  | .data t =>
    let (o, ls1) := processData messageId ls t
    (o, ls1, false)
  | .userMessage items => processResultItems cfg hasPending messageId ls items
  | .toolUse tu => processToolUse cfg frontendNames hasPending messageId ls tu

/-- The whole `async for` loop over the Strands agent stream. -/
def strandsLoop (cfg : StrandsConfig) (frontendNames : List String)
    (hasPending : Bool) (messageId : String) :
    LoopState → List StrandsEvent → List AGEvent × LoopState
  | ls, [] => ([], ls)
  | ls, e :: es =>
    let (out, ls1, brk) := strandsStep cfg frontendNames hasPending messageId ls e
    if brk then (out, ls1)
    else
      let (outs, ls2) := strandsLoop cfg frontendNames hasPending messageId ls1 es
      (out ++ outs, ls2)

/-- The events yielded by the `try` block of `run` when no exception is
raised: the optional state snapshot (minus the "messages" key), the loop
output, the text-message-end closing a still-open message, and the final
run-finished event. -/
def tryBlockEvents (cfg : StrandsConfig) (inp : RunInput)
    (messageId : String) (stream : List StrandsEvent) : List AGEvent :=
  let stateEvents := match inp.state with
    | some st =>
      [AGEvent.stateSnapshot (st.filter (fun kv => kv.1 ≠ "messages"))]
    | none => []
  let (loopOut, lsEnd) :=
    strandsLoop cfg inp.tools (hasPendingToolResult inp) messageId {} stream
  let closeEvents :=
    if lsEnd.messageStarted then [AGEvent.textEnd messageId] else []
  stateEvents ++ loopOut ++ closeEvents ++
    [AGEvent.runFinished inp.threadId inp.runId]

/-- `StrandsAgent.run`: the run-started event, then the `try` block; an
exception raised inside the `try` block is modelled by `exc = some (k,
msg)`: execution stops after `k` of the try-block yields — necessarily
before the final run-finished yield, which nothing can follow — and the
`except` arm yields the single run-error event with code
"STRANDS_ERROR". -/
def strandsRun (cfg : StrandsConfig) (inp : RunInput) (messageId : String)
    (stream : List StrandsEvent) (exc : Option (Nat × String)) :
    List AGEvent :=
  let body := tryBlockEvents cfg inp messageId stream
  match exc with
  | none => AGEvent.runStarted inp.threadId inp.runId :: body
  | some (k, msg) =>
    AGEvent.runStarted inp.threadId inp.runId ::
      (body.take (min k (body.length - 1)) ++
        [AGEvent.runError msg "STRANDS_ERROR"])

end Strands

namespace Strands

open AdkTranslator (spanRun spanRun_append spanRun_neutral WellFramed)

/-- Recognizer for run-started/run-finished/run-error events. -/
def isRunLifecycle : AGEvent → Bool
  | .runStarted _ _ => true
  | .runFinished _ _ => true
  | .runError _ _ => true
  | _ => false

/-- Recognizer for text-message-start events. -/
def isTextStartEv : AGEvent → Bool
  | .textStart _ => true
  | _ => false

/-- Recognizer for text-message-end events. -/
def isTextEndEv : AGEvent → Bool
  | .textEnd _ => true
  | _ => false

/-- Recognizer for run-finished events. -/
def isRunFinishedEv : AGEvent → Bool
  | .runFinished _ _ => true
  | _ => false

/-- Recognizer for run-error events. -/
def isRunErrorEv : AGEvent → Bool
  | .runError _ _ => true
  | _ => false

/-- Neutrality for the automata and the lifecycle count: holds of every
event a loop body emits apart from text start/end. -/
def stepNeutral (ev : AGEvent) : Prop :=
  isTextStartEv ev = false ∧ isTextEndEv ev = false ∧
    isRunLifecycle ev = false

theorem snapshotEventsOf_neutral (emit : Bool) (tid : String) :
    ∀ ev ∈ snapshotEventsOf emit tid, stepNeutral ev := by
  cases emit <;> simp [snapshotEventsOf, stepNeutral, isTextStartEv,
    isTextEndEv, isRunLifecycle]

theorem stateEventsOf_neutral (o : Option (Option (List (String × String)))) :
    ∀ ev ∈ stateEventsOf o, stepNeutral ev := by
  match o with
  | some (some snap) =>
    simp [stateEventsOf, stepNeutral, isTextStartEv, isTextEndEv,
      isRunLifecycle]
  | some none => simp [stateEventsOf]
  | none => simp [stateEventsOf]

theorem handlerEventsOf_neutral (o : Option (List Nat)) :
    ∀ ev ∈ handlerEventsOf o, stepNeutral ev := by
  match o with
  | some tags =>
    intro ev hev
    simp only [handlerEventsOf, List.mem_map] at hev
    obtain ⟨a, _, rfl⟩ := hev
    exact ⟨rfl, rfl, rfl⟩
  | none => simp [handlerEventsOf]

theorem predictEventsOf_neutral (b : Option ToolBehavior) :
    ∀ ev ∈ predictEventsOf b, stepNeutral ev := by
  match b with
  | some bb =>
    simp only [predictEventsOf]
    split_ifs <;>
      simp [stepNeutral, isTextStartEv, isTextEndEv, isRunLifecycle]
  | none => simp [predictEventsOf]

theorem argsEventsOf_neutral (tid args : String)
    (o : Option (List String × Bool)) :
    ∀ ev ∈ argsEventsOf tid args o, stepNeutral ev := by
  match o with
  | some (chunks, raised) =>
    intro ev hev
    simp only [argsEventsOf, List.mem_append, List.mem_map] at hev
    rcases hev with ⟨a, _, rfl⟩ | h
    · exact ⟨rfl, rfl, rfl⟩
    · cases raised <;> simp_all [stepNeutral, isTextStartEv, isTextEndEv,
        isRunLifecycle]
  | none =>
    simp [argsEventsOf, stepNeutral, isTextStartEv, isTextEndEv,
      isRunLifecycle]

theorem spanRun_of_stepNeutral (l : List AGEvent)
    (h : ∀ ev ∈ l, stepNeutral ev) (b : Bool) :
    spanRun isTextStartEv isTextEndEv b l = some b :=
  spanRun_neutral _ _ l (fun ev hev => ⟨(h ev hev).1, (h ev hev).2.1⟩) b

end Strands

namespace Strands

open AdkTranslator (spanRun spanRun_append spanRun_neutral WellFramed)

theorem processData_props (messageId : String) (ls : LoopState)
    (t : String) :
    spanRun isTextStartEv isTextEndEv ls.messageStarted
        (processData messageId ls t).1 =
      some ((processData messageId ls t).2).messageStarted ∧
    ∀ ev ∈ (processData messageId ls t).1, isRunLifecycle ev = false := by
  cases hm : ls.messageStarted <;>
    simp [processData, hm] <;>
    split_ifs <;>
    simp [AdkTranslator.spanRun, isTextStartEv, isTextEndEv,
      isRunLifecycle, hm]

theorem processResultItem_props (cfg : StrandsConfig) (hasPending : Bool)
    (messageId : String) (ls : LoopState) (item : ToolResultItem) :
    spanRun isTextStartEv isTextEndEv ls.messageStarted
        (processResultItem cfg hasPending messageId ls item).1 =
      some ((processResultItem cfg hasPending messageId ls
        item).2.1).messageStarted ∧
    ∀ ev ∈ (processResultItem cfg hasPending messageId ls item).1,
      isRunLifecycle ev = false := by
  cases item with
  | mk tid rdata =>
  cases tid with
  | none => exact ⟨rfl, by simp [processResultItem]⟩
  | some t =>
  cases rdata with
  | none => exact ⟨rfl, by simp [processResultItem]⟩
  | some r =>
  simp only [processResultItem]
  constructor
  · split_ifs with hstop hm
    · rw [spanRun_append, spanRun_append, spanRun_append,
        spanRun_of_stepNeutral _ (snapshotEventsOf_neutral _ _),
        Option.some_bind,
        spanRun_of_stepNeutral _ (stateEventsOf_neutral _),
        Option.some_bind,
        spanRun_of_stepNeutral _ (handlerEventsOf_neutral _),
        Option.some_bind, hm]
      simp [AdkTranslator.spanRun, isTextStartEv, isTextEndEv]
    · rw [List.append_nil, spanRun_append, spanRun_append,
        spanRun_of_stepNeutral _ (snapshotEventsOf_neutral _ _),
        Option.some_bind,
        spanRun_of_stepNeutral _ (stateEventsOf_neutral _),
        Option.some_bind,
        spanRun_of_stepNeutral _ (handlerEventsOf_neutral _)]
      simp_all
    · rw [spanRun_append, spanRun_append,
        spanRun_of_stepNeutral _ (snapshotEventsOf_neutral _ _),
        Option.some_bind,
        spanRun_of_stepNeutral _ (stateEventsOf_neutral _),
        Option.some_bind,
        spanRun_of_stepNeutral _ (handlerEventsOf_neutral _)]
  · split_ifs with hstop hm
    · intro ev hev
      simp only [List.append_assoc, List.mem_append,
        List.mem_singleton] at hev
      rcases hev with h | h | h | h
      · exact (snapshotEventsOf_neutral _ _ ev h).2.2
      · exact (stateEventsOf_neutral _ ev h).2.2
      · exact (handlerEventsOf_neutral _ ev h).2.2
      · subst h; rfl
    · intro ev hev
      simp only [List.append_nil, List.append_assoc, List.mem_append] at hev
      rcases hev with h | h | h
      · exact (snapshotEventsOf_neutral _ _ ev h).2.2
      · exact (stateEventsOf_neutral _ ev h).2.2
      · exact (handlerEventsOf_neutral _ ev h).2.2
    · intro ev hev
      simp only [List.append_assoc, List.mem_append] at hev
      rcases hev with h | h | h
      · exact (snapshotEventsOf_neutral _ _ ev h).2.2
      · exact (stateEventsOf_neutral _ ev h).2.2
      · exact (handlerEventsOf_neutral _ ev h).2.2

end Strands

namespace Strands

open AdkTranslator (spanRun spanRun_append spanRun_neutral WellFramed)

theorem resolveToolUseId_messageStarted (isFrontend : Bool)
    (ls : LoopState) (strandsId : Option String) :
    ((resolveToolUseId isFrontend ls strandsId).2).messageStarted =
      ls.messageStarted := by
  cases isFrontend <;> cases strandsId <;> simp [resolveToolUseId]

theorem processToolUseCore_props (cfg : StrandsConfig)
    (isFrontend hasPending : Bool) (messageId : String) (ls : LoopState)
    (toolName tid args : String) :
    (∀ ev ∈ (processToolUseCore cfg isFrontend hasPending messageId ls
        toolName tid args).1, stepNeutral ev) ∧
    ((processToolUseCore cfg isFrontend hasPending messageId ls
        toolName tid args).2.1).messageStarted = ls.messageStarted := by
  simp only [processToolUseCore]
  split_ifs with h1 h2 h3
  · exact ⟨by simp, rfl⟩
  · exact ⟨by simp, rfl⟩
  · constructor
    · intro ev hev
      simp only [List.mem_append] at hev
      rcases hev with h | h
      · exact stateEventsOf_neutral _ ev h
      · exact predictEventsOf_neutral _ ev h
    · rfl
  · constructor
    · intro ev hev
      simp only [List.append_assoc, List.mem_append,
        List.mem_singleton] at hev
      rcases hev with h | h | h | h | h
      · exact stateEventsOf_neutral _ ev h
      · exact predictEventsOf_neutral _ ev h
      · subst h; exact ⟨rfl, rfl, rfl⟩
      · exact argsEventsOf_neutral _ _ _ ev h
      · subst h; exact ⟨rfl, rfl, rfl⟩
    · rfl

theorem processToolUse_props (cfg : StrandsConfig)
    (frontendNames : List String) (hasPending : Bool) (messageId : String)
    (ls : LoopState) (tu : ToolUse) :
    (∀ ev ∈ (processToolUse cfg frontendNames hasPending messageId ls
        tu).1, stepNeutral ev) ∧
    ((processToolUse cfg frontendNames hasPending messageId ls
        tu).2.1).messageStarted = ls.messageStarted := by
  unfold processToolUse
  cases hr : resolveToolUseId (frontendNames.contains (tu.name.getD ""))
      ls tu.toolUseId with
  | mk tid ls1 =>
  have hm := resolveToolUseId_messageStarted
    (frontendNames.contains (tu.name.getD "")) ls tu.toolUseId
  rw [hr] at hm
  simp only at hm
  have hc := processToolUseCore_props cfg
    (frontendNames.contains (tu.name.getD "")) hasPending messageId ls1
    (tu.name.getD "") tid tu.args
  simp only [hr]
  exact ⟨hc.1, by rw [hc.2, hm]⟩

end Strands

namespace Strands

open AdkTranslator (spanRun spanRun_append spanRun_neutral WellFramed)

theorem processResultItems_props (cfg : StrandsConfig) (hasPending : Bool)
    (messageId : String) (items : List ToolResultItem) :
    ∀ ls : LoopState,
      spanRun isTextStartEv isTextEndEv ls.messageStarted
          (processResultItems cfg hasPending messageId ls items).1 =
        some ((processResultItems cfg hasPending messageId ls
          items).2.1).messageStarted ∧
      ∀ ev ∈ (processResultItems cfg hasPending messageId ls items).1,
        isRunLifecycle ev = false := by
  induction items with
  | nil => intro ls; exact ⟨rfl, by simp [processResultItems]⟩
  | cons item rest ih =>
    intro ls
    cases h1 : processResultItem cfg hasPending messageId ls item with
    | mk out rest1 =>
    cases rest1 with
    | mk ls1 brk =>
    have p1 := processResultItem_props cfg hasPending messageId ls item
    rw [h1] at p1
    simp only at p1
    cases brk with
    | true =>
      simp only [processResultItems, h1, if_true]
      exact ⟨p1.1, p1.2⟩
    | false =>
      cases h2 : processResultItems cfg hasPending messageId ls1 rest with
      | mk outs rest2 =>
      have p2 := ih ls1
      rw [h2] at p2
      simp only at p2
      simp only [processResultItems, h1, h2, Bool.false_eq_true, if_false]
      constructor
      · rw [spanRun_append, p1.1, Option.some_bind, p2.1]
      · intro ev hev
        rcases List.mem_append.mp hev with h | h
        · exact p1.2 ev h
        · exact p2.2 ev h

theorem strandsStep_props (cfg : StrandsConfig)
    (frontendNames : List String) (hasPending : Bool) (messageId : String)
    (ls : LoopState) (e : StrandsEvent) :
    spanRun isTextStartEv isTextEndEv ls.messageStarted
        (strandsStep cfg frontendNames hasPending messageId ls e).1 =
      some ((strandsStep cfg frontendNames hasPending messageId ls
        e).2.1).messageStarted ∧
    ∀ ev ∈ (strandsStep cfg frontendNames hasPending messageId ls e).1,
      isRunLifecycle ev = false := by
  cases e with
  | lifecycle => exact ⟨rfl, by simp [strandsStep]⟩
  | other => exact ⟨rfl, by simp [strandsStep]⟩
  | complete => exact ⟨rfl, by simp [strandsStep]⟩
  | data t =>
    have h := processData_props messageId ls t
    cases hd : processData messageId ls t with
    | mk o ls1 =>
    rw [hd] at h
    simp only at h
    simp only [strandsStep, hd]
    exact h
  | userMessage items =>
    exact processResultItems_props cfg hasPending messageId items ls
  | toolUse tu =>
    have h := processToolUse_props cfg frontendNames hasPending messageId
      ls tu
    simp only [strandsStep]
    refine ⟨?_, fun ev hev => (h.1 ev hev).2.2⟩
    rw [spanRun_of_stepNeutral _ h.1, h.2]

theorem strandsLoop_props (cfg : StrandsConfig)
    (frontendNames : List String) (hasPending : Bool) (messageId : String)
    (stream : List StrandsEvent) :
    ∀ ls : LoopState,
      spanRun isTextStartEv isTextEndEv ls.messageStarted
          (strandsLoop cfg frontendNames hasPending messageId ls
            stream).1 =
        some ((strandsLoop cfg frontendNames hasPending messageId ls
          stream).2).messageStarted ∧
      ∀ ev ∈ (strandsLoop cfg frontendNames hasPending messageId ls
          stream).1, isRunLifecycle ev = false := by
  induction stream with
  | nil => intro ls; exact ⟨rfl, by simp [strandsLoop]⟩
  | cons e es ih =>
    intro ls
    cases h1 : strandsStep cfg frontendNames hasPending messageId ls e with
    | mk out rest1 =>
    cases rest1 with
    | mk ls1 brk =>
    have p1 := strandsStep_props cfg frontendNames hasPending messageId ls e
    rw [h1] at p1
    simp only at p1
    cases brk with
    | true =>
      simp only [strandsLoop, h1, if_true]
      exact ⟨p1.1, p1.2⟩
    | false =>
      cases h2 : strandsLoop cfg frontendNames hasPending messageId ls1 es with
      | mk outs ls2 =>
      have p2 := ih ls1
      rw [h2] at p2
      simp only at p2
      simp only [strandsLoop, h1, h2, Bool.false_eq_true, if_false]
      constructor
      · rw [spanRun_append, p1.1, Option.some_bind, p2.1]
      · intro ev hev
        rcases List.mem_append.mp hev with h | h
        · exact p1.2 ev h
        · exact p2.2 ev h

end Strands

namespace Strands

open AdkTranslator (spanRun spanRun_append spanRun_neutral WellFramed)

theorem lifecycle_not_finished (ev : AGEvent)
    (h : isRunLifecycle ev = false) : isRunFinishedEv ev = false := by
  cases ev <;> simp_all [isRunLifecycle, isRunFinishedEv]

theorem lifecycle_not_error (ev : AGEvent)
    (h : isRunLifecycle ev = false) : isRunErrorEv ev = false := by
  cases ev <;> simp_all [isRunLifecycle, isRunErrorEv]

theorem lifecycle_not_framing (ev : AGEvent)
    (h : isRunLifecycle ev = true) :
    isTextStartEv ev = false ∧ isTextEndEv ev = false := by
  cases ev <;> simp_all [isRunLifecycle, isTextStartEv, isTextEndEv]

theorem tryBlock_decomp (cfg : StrandsConfig) (inp : RunInput)
    (messageId : String) (stream : List StrandsEvent) :
    ∃ core, tryBlockEvents cfg inp messageId stream =
        core ++ [AGEvent.runFinished inp.threadId inp.runId] ∧
      (∀ ev ∈ core, isRunLifecycle ev = false) ∧
      spanRun isTextStartEv isTextEndEv false core = some false := by
  unfold tryBlockEvents
  cases hl : strandsLoop cfg inp.tools (hasPendingToolResult inp)
      messageId {} stream with
  | mk loopOut lsEnd =>
  have hp := strandsLoop_props cfg inp.tools (hasPendingToolResult inp)
    messageId stream {}
  rw [hl] at hp
  simp only at hp
  simp only [hl]
  refine ⟨(match inp.state with
    | some st =>
      [AGEvent.stateSnapshot (st.filter (fun kv => kv.1 ≠ "messages"))]
    | none => []) ++ loopOut ++
      (if lsEnd.messageStarted then [AGEvent.textEnd messageId] else []),
    by simp, ?_, ?_⟩
  · intro ev hev
    simp only [List.append_assoc, List.mem_append] at hev
    rcases hev with h | h | h
    · rcases hst : inp.state with _ | st <;> rw [hst] at h
      · simp at h
      · simp only [List.mem_singleton] at h
        subst h
        rfl
    · exact hp.2 ev h
    · cases hm : lsEnd.messageStarted <;> simp_all [isRunLifecycle]
  · rw [spanRun_append, spanRun_append]
    have hstate : spanRun isTextStartEv isTextEndEv false
        (match inp.state with
          | some st =>
            [AGEvent.stateSnapshot (st.filter (fun kv => kv.1 ≠ "messages"))]
          | none => []) = some false := by
      cases inp.state <;>
        simp [AdkTranslator.spanRun, isTextStartEv, isTextEndEv]
    rw [hstate, Option.some_bind]
    rw [hp.1, Option.some_bind]
    cases hm : lsEnd.messageStarted <;>
      simp [AdkTranslator.spanRun, isTextStartEv, isTextEndEv]

end Strands

namespace Strands

open AdkTranslator (spanRun spanRun_append spanRun_neutral WellFramed)

/-- C10.  Strands run lifecycle invariant: `StrandsAgent.run` yields the
run-started event first; when no exception escapes the body it closes any
still-open text message (the whole output is well bracketed for
text-message spans) and ends with exactly one run-finished event as the
last event and no run-error; when an exception interrupts the body the
stream instead ends with exactly one run-error event carrying code
"STRANDS_ERROR" and contains no run-finished — every run terminates with
exactly one terminal event. -/
theorem claim10_strands_run_lifecycle (cfg : StrandsConfig)
    (inp : RunInput) (messageId : String) (stream : List StrandsEvent)
    (exc : Option (Nat × String)) :
    (strandsRun cfg inp messageId stream exc).head? =
      some (AGEvent.runStarted inp.threadId inp.runId) ∧
    (exc = none →
      (strandsRun cfg inp messageId stream exc).getLast? =
        some (AGEvent.runFinished inp.threadId inp.runId) ∧
      (strandsRun cfg inp messageId stream exc).filter isRunFinishedEv =
        [AGEvent.runFinished inp.threadId inp.runId] ∧
      (strandsRun cfg inp messageId stream exc).filter isRunErrorEv = [] ∧
      WellFramed isTextStartEv isTextEndEv
        (strandsRun cfg inp messageId stream exc)) ∧
    (∀ k msg, exc = some (k, msg) →
      (strandsRun cfg inp messageId stream exc).getLast? =
        some (AGEvent.runError msg "STRANDS_ERROR") ∧
      (strandsRun cfg inp messageId stream exc).filter isRunErrorEv =
        [AGEvent.runError msg "STRANDS_ERROR"] ∧
      (strandsRun cfg inp messageId stream exc).filter isRunFinishedEv =
        []) := by
  obtain ⟨core, hbody, hcore, hspan⟩ :=
    tryBlock_decomp cfg inp messageId stream
  refine ⟨?_, ?_, ?_⟩
  · cases exc with
    | none => rfl
    | some km => cases km; rfl
  · intro hnone
    subst hnone
    simp only [strandsRun, hbody]
    refine ⟨?_, ?_, ?_, ?_⟩
    · rw [show AGEvent.runStarted inp.threadId inp.runId ::
          (core ++ [AGEvent.runFinished inp.threadId inp.runId]) =
          (AGEvent.runStarted inp.threadId inp.runId :: core) ++
            [AGEvent.runFinished inp.threadId inp.runId] from rfl,
        List.getLast?_concat]
    · simp only [List.filter_cons, List.filter_append]
      rw [show isRunFinishedEv (AGEvent.runStarted inp.threadId inp.runId) =
          false from rfl,
        List.filter_eq_nil_iff.mpr (fun ev hev => by
          simp [lifecycle_not_finished ev (hcore ev hev)])]
      rfl
    · simp only [List.filter_cons, List.filter_append]
      rw [show isRunErrorEv (AGEvent.runStarted inp.threadId inp.runId) =
          false from rfl,
        List.filter_eq_nil_iff.mpr (fun ev hev => by
          simp [lifecycle_not_error ev (hcore ev hev)])]
      rfl
    · unfold AdkTranslator.WellFramed
      rw [show (AGEvent.runStarted inp.threadId inp.runId ::
          (core ++ [AGEvent.runFinished inp.threadId inp.runId])) =
          [AGEvent.runStarted inp.threadId inp.runId] ++ core ++
            [AGEvent.runFinished inp.threadId inp.runId] from rfl,
        spanRun_append, spanRun_append]
      rw [show spanRun isTextStartEv isTextEndEv false
          [AGEvent.runStarted inp.threadId inp.runId] = some false from rfl,
        Option.some_bind, hspan, Option.some_bind]
      rfl
  · intro k msg hexc
    subst hexc
    simp only [strandsRun, hbody]
    have hlen : (core ++ [AGEvent.runFinished inp.threadId
        inp.runId]).length - 1 = core.length := by
      simp
    have htake : (core ++ [AGEvent.runFinished inp.threadId
        inp.runId]).take (min k core.length) =
        core.take (min k core.length) :=
      List.take_append_of_le_length (Nat.min_le_right _ _)
    rw [hlen, htake]
    have htaken : ∀ ev ∈ core.take (min k core.length),
        isRunLifecycle ev = false :=
      fun ev hev => hcore ev ((List.take_sublist _ core).subset hev)
    refine ⟨?_, ?_, ?_⟩
    · rw [show (AGEvent.runStarted inp.threadId inp.runId ::
          (core.take (min k core.length) ++
            [AGEvent.runError msg "STRANDS_ERROR"])) =
          (AGEvent.runStarted inp.threadId inp.runId ::
            core.take (min k core.length)) ++
            [AGEvent.runError msg "STRANDS_ERROR"] from rfl,
        List.getLast?_concat]
    · simp only [List.filter_cons, List.filter_append]
      rw [show isRunErrorEv (AGEvent.runStarted inp.threadId inp.runId) =
          false from rfl,
        List.filter_eq_nil_iff.mpr (fun ev hev => by
          simp [lifecycle_not_error ev (htaken ev hev)])]
      rfl
    · simp only [List.filter_cons, List.filter_append]
      rw [show isRunFinishedEv (AGEvent.runStarted inp.threadId
          inp.runId) = false from rfl,
        List.filter_eq_nil_iff.mpr (fun ev hev => by
          simp [lifecycle_not_finished ev (htaken ev hev)])]
      rfl

/-- C10 witness: the theorem applied at a concrete empty run — the
success path ends with the run-finished event, and a run whose body is
interrupted immediately with message "boom" ends with the single
STRANDS_ERROR run-error event. -/
theorem claim10_witness :
    (strandsRun {} {} "m" [] none).getLast? =
      some (AGEvent.runFinished "t" "r") ∧
    (strandsRun {} {} "m" [] (some (0, "boom"))).filter isRunErrorEv =
      [AGEvent.runError "boom" "STRANDS_ERROR"] :=
  ⟨((claim10_strands_run_lifecycle {} {} "m" [] none).2.1 rfl).1,
   ((claim10_strands_run_lifecycle {} {} "m" [] (some (0, "boom"))).2.2
     0 "boom" rfl).2.1⟩

end Strands
